import Mathlib

/-!
Verification of the timesink billing-integrity core (Go) against its
natural-language specification, via a shallow embedding in Lean 4.

Modelling conventions, used consistently below:

* `time.Time` values are modelled as `Int` — seconds since the Unix epoch.
  The Go zero time corresponds to `0` (`IsZero` becomes `= 0`).  The source
  stores times rendered with RFC3339, an injective rendering of
  second-resolution instants; the embedding renders an instant as its decimal
  second count (`formatTimeS`), which is likewise injective, so string
  comparisons of rendered times agree with the source.
* `float64` quantities (rates, money, hours) are modelled as `ℚ`.
* SQLite tables are modelled as lists of rows; a transaction is modelled by
  computing the candidate post-state and returning the original state on any
  failure (the source opens a transaction, defers `Rollback`, and commits
  only at the end, so a failed operation leaves the store untouched).
* Repository and service operations return `Except Err Unit × State`
  (result plus the durable state after the call), mirroring which individual
  repository calls have committed when a service operation fails midway.
* Sub-second truncation (`int64(d.Seconds())`) is the identity on the
  integral-second instants used here.
-/

/-- Fuel-driven helper for `natToDigits` (structural recursion, so that the
kernel can evaluate renderings inside `decide`). -/
def natToDigitsAux (fuel : Nat) (n : Nat) : List Char :=
  match fuel with
  | 0 => []
  | fuel + 1 =>
    if n < 10 then [Nat.digitChar n]
    else natToDigitsAux fuel (n / 10) ++ [Nat.digitChar (n % 10)]

/-- Decimal digits of a natural number, most significant first
(the rendering `fmt.Sprintf("%d", n)` produces in Go). -/
def natToDigits (n : Nat) : List Char := natToDigitsAux (n + 1) n

/-- Equality of `Except` values is decidable componentwise. -/
instance instDecidableEqExcept {ε α : Type} [DecidableEq ε] [DecidableEq α] :
    DecidableEq (Except ε α) := fun a b =>
  match a, b with
  | .ok x, .ok y =>
    if h : x = y then .isTrue (congrArg Except.ok h)
    else .isFalse (fun hc => h (Except.ok.inj hc))
  | .error x, .error y =>
    if h : x = y then .isTrue (congrArg Except.error h)
    else .isFalse (fun hc => h (Except.error.inj hc))
  | .ok _, .error _ => .isFalse (fun hc => Except.noConfusion hc)
  | .error _, .ok _ => .isFalse (fun hc => Except.noConfusion hc)

/-- Value of a run of decimal digits (the accumulation `fmt.Sscanf`'s `%d`
verb performs over a maximal digit run). -/
def digitsToNat (cs : List Char) : Nat :=
  cs.foldl (fun n c => n * 10 + (c.toNat - 48)) 0

/-- Decimal rendering of a Go `int64` (`strconv.FormatInt(i, 10)`). -/
def intToString (i : Int) : String :=
  if i < 0 then "-" ++ String.mk (natToDigits i.natAbs)
  else String.mk (natToDigits i.natAbs)

/-- Rendering of an instant as stored in the database.  The source uses
RFC3339; both renderings are injective on second-resolution instants, which
is the only property the code relies on. -/
def formatTimeS (t : Int) : String := intToString t

/-- Rendering of a Go `bool` (`strconv.FormatBool`). -/
def formatBool (b : Bool) : String := if b then "true" else "false"

/-- Rendering of a `float64` with `fmt.Sprintf("%.2f", x)`: the value rounded
to two decimal places.  (Go rounds ties to even; `round` rounds ties up —
the two agree except at exact half-cent values, which no claim exercises.) -/
def formatMoney (q : ℚ) : String :=
  let c : Int := round (q * 100)
  let a := c.natAbs
  (if c < 0 then "-" else "")
    ++ String.mk (natToDigits (a / 100))
    ++ "."
    ++ String.mk [Nat.digitChar (a % 100 / 10), Nat.digitChar (a % 100 % 10)]

/-- Byte-wise (BINARY-collation) strict order on strings, as SQLite's
`ORDER BY invoice_number DESC` compares TEXT values. -/
def charsLt : List Char → List Char → Bool
  | [], [] => false
  | [], _ :: _ => true
  | _ :: _, [] => false
  | a :: as, b :: bs =>
    if a.toNat < b.toNat then true
    else if b.toNat < a.toNat then false
    else charsLt as bs

/-- ASCII case folding, as SQLite's default `LIKE` applies to A–Z only. -/
def asciiLower (c : Char) : Char :=
  if 'A' ≤ c ∧ c ≤ 'Z' then Char.ofNat (c.toNat + 32) else c

/-- Matching of a stored value against the `LIKE` pattern `pat ++ "%"`:
an ASCII-case-insensitive prefix test (the patterns the source builds hold
no other wildcard). -/
def likePrefix (pat s : List Char) : Bool :=
  (pat.map asciiLower).isPrefixOf (s.map asciiLower)

section Domain

/-- domain.Client (the fields the core reads). -/
structure Client where
  id : Int
  name : String
  email : String
  hourlyRate : ℚ
  notes : String
  isArchived : Bool
  deriving Repr, DecidableEq

/-- domain.TimeEntry. -/
structure TimeEntry where
  id : Int
  clientID : Int
  description : String
  startTime : Int
  endTime : Option Int
  durationSeconds : Option Int
  hourlyRate : ℚ
  isBillable : Bool
  isDeleted : Bool
  invoiceID : Option Int
  createdAt : Int
  updatedAt : Int
  deriving Repr, DecidableEq

/-- TimeEntry.Duration, in seconds: `time.Since(start)` for an open entry,
`end.Sub(start)` for a closed one.  `now` stands for the wall clock. -/
def TimeEntry.Duration (e : TimeEntry) (now : Int) : Int :=
  match e.endTime with
  | none => now - e.startTime
  | some en => en - e.startTime

/-- TimeEntry.Amount: `0` if not billable, else `Duration().Hours() * HourlyRate`. -/
def TimeEntry.Amount (e : TimeEntry) (now : Int) : ℚ :=
  if !e.isBillable then 0
  else ((e.Duration now : ℚ) / 3600) * e.hourlyRate

/-- TimeEntry.IsLockedE: the entry is attached to an invoice. -/
def TimeEntry.IsLockedE (e : TimeEntry) : Bool := e.invoiceID.isSome

/-- TimeEntry.Validate. -/
def TimeEntry.Validate (e : TimeEntry) : Except String Unit :=
  if e.clientID ≤ 0 then .error "client ID is required"
  else if e.hourlyRate < 0 then .error "hourly rate cannot be negative"
  else if e.startTime = 0 then .error "start time is required"
  else
    match e.endTime with
    | some en => if en < e.startTime then .error "end time must be after start time" else .ok ()
    | none => .ok ()

/-- domain.TimerState. -/
inductive TimerState where
  | idle
  | running
  | paused
  deriving Repr, DecidableEq

/-- domain.ActiveTimer. -/
structure ActiveTimer where
  clientID : Int
  description : String
  startTime : Int
  pausedAt : Option Int
  totalPausedSeconds : Int
  deriving Repr, DecidableEq

/-- domain.NewActiveTimer: a fresh running timer started now. -/
def NewActiveTimer (clientID : Int) (description : String) (now : Int) : ActiveTimer :=
  { clientID := clientID, description := description, startTime := now
    pausedAt := none, totalPausedSeconds := 0 }

/-- ActiveTimer.State: paused when a pause timestamp is set, else running. -/
def ActiveTimer.State (t : ActiveTimer) : TimerState :=
  match t.pausedAt with
  | some _ => .paused
  | none => .running

/-- ActiveTimer.Elapsed, in seconds: wall time since start minus cumulative
paused seconds minus (if currently paused) the open pause interval. -/
def ActiveTimer.Elapsed (t : ActiveTimer) (now : Int) : Int :=
  (now - t.startTime) -
    (t.totalPausedSeconds + (match t.pausedAt with | some p => now - p | none => 0))

/-- ActiveTimer.Pause: a no-op when already paused. -/
def ActiveTimer.Pause (t : ActiveTimer) (now : Int) : ActiveTimer :=
  match t.pausedAt with
  | some _ => t
  | none => { t with pausedAt := some now }

/-- ActiveTimer.Resume: folds the just-ended pause into the cumulative
counter and clears the pause timestamp; a no-op when not paused. -/
def ActiveTimer.Resume (t : ActiveTimer) (now : Int) : ActiveTimer :=
  match t.pausedAt with
  | some p =>
    { t with totalPausedSeconds := t.totalPausedSeconds + (now - p), pausedAt := none }
  | none => t

/-- ActiveTimer.ToTimeEntry: finalizes any open pause, then produces a closed
entry whose stored duration is the elapsed active time. -/
def ActiveTimer.ToTimeEntry (t : ActiveTimer) (hourlyRate : ℚ) (now : Int) : TimeEntry :=
  let t' := match t.pausedAt with
    | some _ => t.Resume now
    | none => t
  { id := 0, clientID := t'.clientID, description := t'.description
    startTime := t'.startTime, endTime := some now
    durationSeconds := some (t'.Elapsed now)
    hourlyRate := hourlyRate, isBillable := true, isDeleted := false
    invoiceID := none, createdAt := t'.startTime, updatedAt := now }

/-- domain.InvoiceStatus. -/
inductive InvoiceStatus where
  | draft
  | finalized
  | sent
  | paid
  | overdue
  deriving Repr, DecidableEq

/-- domain.InvoiceLineItem. -/
structure InvoiceLineItem where
  id : Int
  invoiceID : Int
  entryID : Int
  date : Int
  description : String
  hours : ℚ
  rate : ℚ
  amount : ℚ
  deriving Repr, DecidableEq

/-- domain.Invoice.  `lineItems` is the transient related-data slice of the
Go struct: it is not an invoice-table column, and stored rows keep it `[]`. -/
structure Invoice where
  id : Int
  invoiceNumber : String
  clientID : Int
  periodStart : Int
  periodEnd : Int
  subtotal : ℚ
  taxRate : ℚ
  taxAmount : ℚ
  total : ℚ
  status : InvoiceStatus
  dueDate : Option Int
  paidDate : Option Int
  createdAt : Int
  updatedAt : Int
  lineItems : List InvoiceLineItem
  deriving Repr, DecidableEq

/-- Invoice.CanEdit: only a draft invoice may be modified. -/
def Invoice.CanEdit (i : Invoice) : Bool := i.status = .draft

/-- Invoice.FinalizeStatus (the domain method `Finalize`): a draft moves to
finalized; any other status is left alone. -/
def Invoice.FinalizeStatus (i : Invoice) (now : Int) : Invoice :=
  if i.status = .draft then { i with status := .finalized, updatedAt := now } else i

/-- Invoice.CalculateTotals: subtotal is the sum of the line-item amounts,
tax is subtotal times the tax rate, total is subtotal plus tax. -/
def Invoice.CalculateTotals (i : Invoice) (now : Int) : Invoice :=
  let sub := (i.lineItems.map (fun item => item.amount)).sum
  { i with subtotal := sub, taxAmount := sub * i.taxRate
           total := sub + sub * i.taxRate, updatedAt := now }

/-- Invoice.Validate. -/
def Invoice.Validate (i : Invoice) : Except String Unit :=
  if i.invoiceNumber = "" then .error "invoice number is required"
  else if i.clientID ≤ 0 then .error "client ID is required"
  else if i.periodStart = 0 then .error "period start is required"
  else if i.periodEnd = 0 then .error "period end is required"
  else if i.periodEnd < i.periodStart then .error "period end must be after period start"
  else if i.taxRate < 0 ∨ i.taxRate > 1 then .error "tax rate must be between 0 and 1"
  else .ok ()

/-- domain.EntryHistory: one audit row. -/
structure HistoryRow where
  id : Int
  entryID : Int
  fieldName : String
  oldValue : String
  newValue : String
  changeReason : String
  changedAt : Int
  deriving Repr, DecidableEq

end Domain

/-- Error kinds surfaced by the modelled operations, one per distinct error
the source constructs on these paths. -/
inductive Err where
  | invalidEntry (msg : String)
  | invalidInvoice (msg : String)
  | entryNotFound
  | updateTargetMissing
  | locked (op : String)
  | lockFailed (entryID : Int)
  | invoiceNotFound
  | lineItemNotFound
  | notEditable
  | emptyInvoice
  | clientNotFound
  | alreadyRunning
  | notRunning
  | notPaused
  | noActiveTimer
  deriving Repr, DecidableEq

/-- LockedError kind of the spec's taxonomy: mutation of an invoiced entry. -/
def Err.isLockedError : Err → Bool
  | .locked _ => true
  | _ => false

section EntryRepository

/-- The durable state behind EntryRepo: the time-entry table, the
entry-history table, and the autoincrement counters for their primary keys. -/
structure EntryStore where
  entries : List TimeEntry
  history : List HistoryRow
  nextEntryID : Int
  nextHistoryID : Int
  deriving Repr, DecidableEq

/-- Payload of one pending audit insert (column values other than the
autoincrement id, the entry id, the reason and the timestamp, which the
surrounding operation supplies). -/
structure HistoryPayload where
  fieldName : String
  oldValue : String
  newValue : String
  deriving Repr, DecidableEq

/-- Row lookup `WHERE id = ?` (first matching row, as QueryRow takes). -/
def EntryStore.findRow (st : EntryStore) (id : Int) : Option TimeEntry :=
  st.entries.find? (fun r => r.id == id)

/-- EntryRepo.IsLocked: reads the invoice reference of the row with the given
id (deleted rows included); missing row is an error. -/
def EntryRepo.IsLocked (st : EntryStore) (id : Int) : Except Err Bool :=
  match st.findRow id with
  | none => .error .entryNotFound
  | some r => .ok r.invoiceID.isSome

/-- EntryRepo.GetByID (deleted rows included — the query has no filter). -/
def EntryRepo.GetByID (st : EntryStore) (id : Int) : Except Err TimeEntry :=
  match st.findRow id with
  | none => .error .entryNotFound
  | some r => .ok r

/-- EntryRepo.Create: validates, inserts, and reports the assigned id. -/
def EntryRepo.Create (st : EntryStore) (entry : TimeEntry) :
    Except Err (TimeEntry × EntryStore) :=
  match entry.Validate with
  | .error msg => .error (.invalidEntry msg)
  | .ok () =>
    let e := { entry with id := st.nextEntryID }
    .ok (e, { st with entries := st.entries ++ [e], nextEntryID := st.nextEntryID + 1 })

/-- The body of createAuditRecords' insertHistory closure: skip the insert
when the rendered values coincide. -/
def insertHistory (fieldName oldVal newVal : String) : List HistoryPayload :=
  if oldVal = newVal then [] else [⟨fieldName, oldVal, newVal⟩]

/-- Rendering of a nullable end time ('' for NULL, as createAuditRecords
renders it). -/
def renderEnd (e : TimeEntry) : String :=
  match e.endTime with
  | none => ""
  | some t => formatTimeS t

/-- EntryRepo.createAuditRecords: one pending audit insert per audited field
whose value changed, in source order — client_id, description, start_time,
end_time, hourly_rate, is_billable.  Each field keeps the source's double
guard: the typed comparison around the call, and insertHistory's rendered
comparison inside it. -/
def createAuditRecords (old new : TimeEntry) : List HistoryPayload :=
  (if old.clientID = new.clientID then []
   else insertHistory "client_id" (intToString old.clientID) (intToString new.clientID))
  ++ (if old.description = new.description then []
      else insertHistory "description" old.description new.description)
  ++ (if old.startTime = new.startTime then []
      else insertHistory "start_time" (formatTimeS old.startTime) (formatTimeS new.startTime))
  ++ (if renderEnd old = renderEnd new then []
      else insertHistory "end_time" (renderEnd old) (renderEnd new))
  ++ (if old.hourlyRate = new.hourlyRate then []
      else insertHistory "hourly_rate" (formatMoney old.hourlyRate) (formatMoney new.hourlyRate))
  ++ (if old.isBillable = new.isBillable then []
      else insertHistory "is_billable" (formatBool old.isBillable) (formatBool new.isBillable))

/-- The six audited fields of a time entry, in the order
createAuditRecords checks them.  duration_seconds is updated by the SQL
statement but has no audit case. -/
inductive AuditField where
  | clientId
  | description
  | startTime
  | endTime
  | hourlyRate
  | isBillable
  deriving Repr, DecidableEq

/-- The entry_history field_name each audited field is recorded under. -/
def AuditField.fieldName : AuditField → String
  | .clientId => "client_id"
  | .description => "description"
  | .startTime => "start_time"
  | .endTime => "end_time"
  | .hourlyRate => "hourly_rate"
  | .isBillable => "is_billable"

/-- The rendering under which createAuditRecords stores (and, through
insertHistory, compares) each audited field. -/
def auditRender (f : AuditField) (e : TimeEntry) : String :=
  match f with
  | .clientId => intToString e.clientID
  | .description => e.description
  | .startTime => formatTimeS e.startTime
  | .endTime => renderEnd e
  | .hourlyRate => formatMoney e.hourlyRate
  | .isBillable => formatBool e.isBillable

/-- Materialization of pending audit inserts as entry_history rows with
consecutive autoincrement ids. -/
def mkHistoryRows (nextID entryID : Int) (reason : String) (now : Int) :
    List HistoryPayload → List HistoryRow
  | [] => []
  | p :: ps =>
    { id := nextID, entryID := entryID, fieldName := p.fieldName
      oldValue := p.oldValue, newValue := p.newValue
      changeReason := reason, changedAt := now }
      :: mkHistoryRows (nextID + 1) entryID reason now ps

/-- Insertion of pending audit rows into entry_history, assigning
autoincrement ids. -/
def EntryStore.attachHistory (st : EntryStore) (entryID : Int) (reason : String)
    (now : Int) (ps : List HistoryPayload) : EntryStore :=
  { st with
    history := st.history ++ mkHistoryRows st.nextHistoryID entryID reason now ps
    nextHistoryID := st.nextHistoryID + ps.length }

/-- Column assignments of Update's SQL statement: every mutable column except
is_deleted, invoice_id and created_at, which the statement does not set. -/
def applyUpdate (r entry : TimeEntry) (now : Int) : TimeEntry :=
  { r with clientID := entry.clientID, description := entry.description
           startTime := entry.startTime, endTime := entry.endTime
           durationSeconds := entry.durationSeconds, hourlyRate := entry.hourlyRate
           isBillable := entry.isBillable, updatedAt := now }

/-- EntryRepo.Update: validate, refuse locked entries, diff against the
stored row, and atomically apply the column update (`WHERE id = ? AND
is_deleted = 0`) together with the audit rows. -/
def EntryRepo.Update (st : EntryStore) (entry : TimeEntry) (reason : String)
    (now : Int) : Except Err Unit × EntryStore :=
  match entry.Validate with
  | .error msg => (.error (.invalidEntry msg), st)
  | .ok () =>
    match EntryRepo.IsLocked st entry.id with
    | .error e => (.error e, st)
    | .ok true => (.error (.locked "update"), st)
    | .ok false =>
      match EntryRepo.GetByID st entry.id with
      | .error e => (.error e, st)
      | .ok oldEntry =>
        if st.entries.countP (fun r => r.id == entry.id && !r.isDeleted) = 0 then
          (.error .updateTargetMissing, st)
        else
          let entries' := st.entries.map (fun r =>
            if r.id == entry.id && !r.isDeleted then applyUpdate r entry now else r)
          let ps := createAuditRecords oldEntry entry
          (.ok (), EntryStore.attachHistory { st with entries := entries' }
            entry.id reason now ps)

/-- EntryRepo.SoftDelete: refuse locked entries, then atomically set the
deleted flag (`WHERE id = ?` — no deleted filter) and insert the mandatory
is_deleted audit row. -/
def EntryRepo.SoftDelete (st : EntryStore) (id : Int) (reason : String)
    (now : Int) : Except Err Unit × EntryStore :=
  match EntryRepo.IsLocked st id with
  | .error e => (.error e, st)
  | .ok true => (.error (.locked "delete"), st)
  | .ok false =>
    if st.entries.countP (fun r => r.id == id) = 0 then
      (.error .entryNotFound, st)
    else
      let entries' := st.entries.map (fun r =>
        if r.id == id then { r with isDeleted := true, updatedAt := now } else r)
      (.ok (), EntryStore.attachHistory { st with entries := entries' }
        id reason now [⟨"is_deleted", "0", "1"⟩])

/-- Eligibility of a row for the batch-lock statement's `WHERE id = ? AND
invoice_id IS NULL AND is_deleted = 0`. -/
def lockable (entryID : Int) (r : TimeEntry) : Bool :=
  r.id == entryID && r.invoiceID.isNone && !r.isDeleted

/-- One execution of the prepared batch-lock statement: fails (rows affected
zero) when no row is eligible, else attaches every eligible row. -/
def lockStep (entries : List TimeEntry) (invoiceID now entryID : Int) :
    Option (List TimeEntry) :=
  if entries.countP (lockable entryID) = 0 then none
  else some (entries.map (fun r =>
    if lockable entryID r then { r with invoiceID := some invoiceID, updatedAt := now } else r))

/-- The batch-lock loop over the entry ids, inside one transaction; the
result carries the id of the first failing entry. -/
def lockList (entries : List TimeEntry) (invoiceID now : Int) :
    List Int → Except Int (List TimeEntry)
  | [] => .ok entries
  | id :: rest =>
    match lockStep entries invoiceID now id with
    | none => .error id
    | some entries' => lockList entries' invoiceID now rest

/-- EntryRepo.LockForInvoice: an empty batch is a no-op; otherwise all the
listed entries are attached to the invoice in one transaction, and a failure
on any of them rolls the whole batch back. -/
def EntryRepo.LockForInvoice (st : EntryStore) (entryIDs : List Int)
    (invoiceID now : Int) : Except Err Unit × EntryStore :=
  if entryIDs.isEmpty then (.ok (), st)
  else
    match lockList st.entries invoiceID now entryIDs with
    | .error id => (.error (.lockFailed id), st)
    | .ok entries' => (.ok (), { st with entries := entries' })

end EntryRepository

section InvoiceRepository

/-- The durable state the invoice lifecycle touches: the invoice and
line-item tables (with their autoincrement counters) plus the entry store. -/
structure InvoiceState where
  invoices : List Invoice
  lineItems : List InvoiceLineItem
  nextLineItemID : Int
  entryStore : EntryStore
  deriving Repr, DecidableEq

/-- Invoice lookup `WHERE id = ?`.  A scanned row carries no related data,
so stored rows keep `lineItems = []`. -/
def InvoiceState.findInvoice (st : InvoiceState) (id : Int) : Option Invoice :=
  st.invoices.find? (fun i => i.id == id)

/-- InvoiceRepo.GetLineItems: the line items of one invoice.  (The source
orders them by date; no claim below depends on the order.) -/
def InvoiceRepo.GetLineItems (st : InvoiceState) (invoiceID : Int) :
    List InvoiceLineItem :=
  st.lineItems.filter (fun li => li.invoiceID == invoiceID)

/-- InvoiceRepo.Update: validate, then overwrite the row with the given id
(`rows affected = 0` is an error).  Only table columns persist: the
transient line-item slice is dropped. -/
def InvoiceRepo.Update (st : InvoiceState) (invoice : Invoice) (now : Int) :
    Except Err Unit × InvoiceState :=
  match invoice.Validate with
  | .error msg => (.error (.invalidInvoice msg), st)
  | .ok () =>
    if st.invoices.countP (fun i => i.id == invoice.id) = 0 then
      (.error .invoiceNotFound, st)
    else
      (.ok (), { st with invoices := st.invoices.map (fun i =>
        if i.id == invoice.id then { invoice with updatedAt := now, lineItems := [] } else i) })

/-- InvoiceRepo.AddLineItem: insert the line item for the invoice, assigning
the autoincrement id. -/
def InvoiceRepo.AddLineItem (st : InvoiceState) (invoiceID : Int)
    (item : InvoiceLineItem) : InvoiceState :=
  { st with
    lineItems := st.lineItems ++
      [{ item with id := st.nextLineItemID, invoiceID := invoiceID }]
    nextLineItemID := st.nextLineItemID + 1 }

/-- The `LIKE 'prefix-year-%' ORDER BY invoice_number DESC LIMIT 1` scan:
the byte-wise greatest stored number matching the pattern. -/
def maxMatching (numbers : List String) (pat : String) : Option String :=
  (numbers.filter (fun n => likePrefix pat.data n.data)).foldl
    (fun acc s => match acc with
      | none => some s
      | some m => some (if charsLt m.data s.data then s else m))
    none

/-- The `fmt.Sscanf(lastNumber, prefix+"-%d-%d", &year, &seq)` parse: the
literal prefix and dashes matched exactly (case-sensitively), each `%d`
consuming a maximal nonempty digit run, trailing input ignored.  (The
`%d` verb would also accept a sign or leading spaces; the numbers this
repository stores never contain either.) -/
def parseSeq (pfx : String) (s : String) : Option (Nat × Nat) :=
  let pl := pfx.data ++ ['-']
  if pl.isPrefixOf s.data then
    let rest := s.data.drop pl.length
    let yearDigits := rest.takeWhile Char.isDigit
    if yearDigits.isEmpty then none
    else
      match rest.drop yearDigits.length with
      | '-' :: rest2 =>
        let seqDigits := rest2.takeWhile Char.isDigit
        if seqDigits.isEmpty then none
        else some (digitsToNat yearDigits, digitsToNat seqDigits)
      | _ => none
  else none

/-- The rendering `fmt.Sprintf("%03d", n)`: three-digit zero-padded for
`n < 1000`, plain decimal beyond. -/
def sprintf03d (n : Nat) : List Char :=
  if n < 1000 then
    [Nat.digitChar (n / 100), Nat.digitChar (n / 10 % 10), Nat.digitChar (n % 10)]
  else natToDigits n

/-- The number `prefix-year-seq` with the sequence rendered `%03d`. -/
def mkInvoiceNumber (pfx : String) (year : Int) (seq : Nat) : String :=
  pfx ++ "-" ++ intToString year ++ "-" ++ String.mk (sprintf03d seq)

/-- InvoiceRepo.GetNextInvoiceNumber, as a function of the stored
invoice-number column: scan for the greatest number matching
`prefix-year-%`, parse its trailing sequence and increment it; fall back to
sequence 001 when nothing matches or the parse fails.  (On a successful
parse the source formats the year parsed back out of the matched number; a
match necessarily starts with the digits of the argument year, so the two
coincide.) -/
def InvoiceRepo.GetNextInvoiceNumber (numbers : List String) (pfx : String)
    (year : Int) : String :=
  let pat := pfx ++ "-" ++ intToString year ++ "-"
  match maxMatching numbers pat with
  | none => mkInvoiceNumber pfx year 1
  | some last =>
    match parseSeq pfx last with
    | none => mkInvoiceNumber pfx year 1
    | some (_, lastSeq) => mkInvoiceNumber pfx year (lastSeq + 1)

end InvoiceRepository

section InvoiceService

/-- invoiceService.CalculateTotals: load the invoice and its line items, set
the tax rate, recompute the totals, persist. -/
def InvoiceService.CalculateTotals (st : InvoiceState) (invoiceID : Int)
    (taxRate : ℚ) (now : Int) : Except Err Unit × InvoiceState :=
  match st.findInvoice invoiceID with
  | none => (.error .invoiceNotFound, st)
  | some invoice =>
    let inv1 := { invoice with
      lineItems := InvoiceRepo.GetLineItems st invoiceID, taxRate := taxRate }
    let inv2 := inv1.CalculateTotals now
    InvoiceRepo.Update st inv2 now

/-- invoiceService.Finalize: require an editable invoice with at least one
line item, lock every line-itemed entry to the invoice through the batch
lock, then flip the status to finalized and persist.  The batch lock and
the status update are separate repository transactions, so a failure of the
latter leaves the already-committed locks in place — the state component
records exactly what has committed. -/
def InvoiceService.Finalize (st : InvoiceState) (invoiceID : Int) (now : Int) :
    Except Err Unit × InvoiceState :=
  match st.findInvoice invoiceID with
  | none => (.error .invoiceNotFound, st)
  | some invoice =>
    if !invoice.CanEdit then (.error .notEditable, st)
    else
      let items := InvoiceRepo.GetLineItems st invoiceID
      if items.isEmpty then (.error .emptyInvoice, st)
      else
        let entryIDs := items.map (fun item => item.entryID)
        match EntryRepo.LockForInvoice st.entryStore entryIDs invoiceID now with
        | (.error e, _) => (.error e, st)
        | (.ok (), es') =>
          let st1 := { st with entryStore := es' }
          InvoiceRepo.Update st1 (invoice.FinalizeStatus now) now

end InvoiceService

section TimerService

/-- Client lookup by id, as ClientRepo.GetByID resolves the timer's owner. -/
def findClient (clients : List Client) (id : Int) : Option Client :=
  clients.find? (fun c => c.id == id)

/-- timerService.Start: the client must exist and no timer may exist; on
success the singleton becomes a fresh running timer. -/
def TimerService.Start (clients : List Client) (timer : Option ActiveTimer)
    (clientID : Int) (description : String) (now : Int) :
    Except Err Unit × Option ActiveTimer :=
  match findClient clients clientID with
  | none => (.error .clientNotFound, timer)
  | some _ =>
    match timer with
    | some _ => (.error .alreadyRunning, timer)
    | none => (.ok (), some (NewActiveTimer clientID description now))

/-- timerService.Pause: no singleton is NoActiveTimerError; a singleton not
in the Running state is NotRunningError; else set the pause timestamp. -/
def TimerService.Pause (timer : Option ActiveTimer) (now : Int) :
    Except Err Unit × Option ActiveTimer :=
  match timer with
  | none => (.error .noActiveTimer, timer)
  | some t =>
    if t.State ≠ .running then (.error .notRunning, timer)
    else (.ok (), some (t.Pause now))

/-- timerService.Resume: no singleton is NoActiveTimerError; a singleton not
in the Paused state is NotPausedError; else fold the pause and resume. -/
def TimerService.Resume (timer : Option ActiveTimer) (now : Int) :
    Except Err Unit × Option ActiveTimer :=
  match timer with
  | none => (.error .noActiveTimer, timer)
  | some t =>
    if t.State ≠ .paused then (.error .notPaused, timer)
    else (.ok (), some (t.Resume now))

/-- timerService.Stop: look up the owning client's current rate, convert the
timer to a closed entry, persist it, then delete the singleton.  A failure
at any step leaves both the singleton and the entry store as they were. -/
def TimerService.Stop (clients : List Client) (timer : Option ActiveTimer)
    (es : EntryStore) (now : Int) :
    Except Err TimeEntry × (Option ActiveTimer × EntryStore) :=
  match timer with
  | none => (.error .noActiveTimer, (timer, es))
  | some t =>
    match findClient clients t.clientID with
    | none => (.error .clientNotFound, (timer, es))
    | some client =>
      match EntryRepo.Create es (t.ToTimeEntry client.hourlyRate now) with
      | .error e => (.error e, (timer, es))
      | .ok (entry, es') => (.ok entry, (none, es'))

/-- timerService.Discard: delete the singleton without creating an entry. -/
def TimerService.Discard (timer : Option ActiveTimer) :
    Except Err Unit × Option ActiveTimer :=
  match timer with
  | none => (.error .noActiveTimer, timer)
  | some _ => (.ok (), none)

end TimerService

section ClaimScenarios

/-- Scenario client for the elapsed-time claim: id 7, hourly rate 360. -/
def c4Clients : List Client :=
  [{ id := 7, name := "ACME", email := "", hourlyRate := 360, notes := "", isArchived := false }]

/-- Scenario entry store for the elapsed-time claim: empty. -/
def c4Es : EntryStore := { entries := [], history := [], nextEntryID := 1, nextHistoryID := 1 }

/-- The timer script of the elapsed-time claim: Start at 1000, Pause at
1010, Resume at 1040, Stop at 1050. -/
def c4StopResult : Except Err TimeEntry × (Option ActiveTimer × EntryStore) :=
  TimerService.Stop c4Clients
    ((TimerService.Resume
      ((TimerService.Pause
        ((TimerService.Start c4Clients none 7 "work" 1000).2) 1010).2) 1040).2)
    c4Es 1050

/-- The entry that script persists. -/
def c4Entry : TimeEntry :=
  { id := 1, clientID := 7, description := "work", startTime := 1000
    endTime := some 1050, durationSeconds := some 20, hourlyRate := 360
    isBillable := true, isDeleted := false, invoiceID := none
    createdAt := 1000, updatedAt := 1050 }

/-- Concrete closed two-hour entry at rate 100 for the C8 witness. -/
def c8Entry : TimeEntry :=
  { id := 3, clientID := 1, description := "w", startTime := 100
    endTime := some 7300, durationSeconds := some 7200, hourlyRate := 100
    isBillable := true, isDeleted := false, invoiceID := none
    createdAt := 100, updatedAt := 7300 }

/-- The entry used by the C1 counterexample: stored, locked to invoice 5. -/
def c1Locked : TimeEntry :=
  { id := 1, clientID := 3, description := "d", startTime := 100
    endTime := some 200, durationSeconds := some 100, hourlyRate := 50
    isBillable := true, isDeleted := false, invoiceID := some 5
    createdAt := 100, updatedAt := 200 }

/-- The store of the C1 counterexample. -/
def c1Store : EntryStore :=
  { entries := [c1Locked], history := [], nextEntryID := 2, nextHistoryID := 1 }

/-- Store for the C9 witness: one soft-deleted, unlocked entry. -/
def c9Store : EntryStore :=
  { entries := [{ c1Locked with invoiceID := none, isDeleted := true }]
    history := [], nextEntryID := 2, nextHistoryID := 1 }

/-- Store for the C10 witness: one lockable entry with id 1. -/
def c10Store : EntryStore :=
  { entries := [{ c1Locked with invoiceID := none }]
    history := [], nextEntryID := 2, nextHistoryID := 1 }

/-- Draft invoice for the C2 witness. -/
def c2Inv : Invoice :=
  { id := 1, invoiceNumber := "INV-2026-001", clientID := 3, periodStart := 10
    periodEnd := 20, subtotal := 0, taxRate := 0, taxAmount := 0, total := 0
    status := .draft, dueDate := none, paidDate := none, createdAt := 5
    updatedAt := 5, lineItems := [] }

/-- Line item for the C2 witness, pointing at entry 1. -/
def c2Li : InvoiceLineItem :=
  { id := 1, invoiceID := 1, entryID := 1, date := 100, description := "d"
    hours := 2, rate := 50, amount := 100 }

/-- State for the C2 witness: the draft invoice, its one line item, and a
lockable entry with id 1. -/
def c2St : InvoiceState :=
  { invoices := [c2Inv], lineItems := [c2Li], nextLineItemID := 2
    entryStore := { entries := [{ c1Locked with invoiceID := none }]
                    history := [], nextEntryID := 2, nextHistoryID := 1 } }

/-- Stored entry for the C3 scenarios. -/
def c3Entry : TimeEntry :=
  { id := 1, clientID := 3, description := "d", startTime := 100
    endTime := some 200, durationSeconds := some 3600, hourlyRate := 50
    isBillable := true, isDeleted := false, invoiceID := none
    createdAt := 100, updatedAt := 200 }

/-- Store for the C3 scenarios. -/
def c3Store : EntryStore :=
  { entries := [c3Entry], history := [], nextEntryID := 2, nextHistoryID := 1 }

/-- Draft invoice for the C6 witness (zero totals, zero tax rate). -/
def c6Inv : Invoice :=
  { id := 1, invoiceNumber := "INV-2026-001", clientID := 3, periodStart := 10
    periodEnd := 20, subtotal := 0, taxRate := 0, taxAmount := 0, total := 0
    status := .draft, dueDate := none, paidDate := none, createdAt := 5
    updatedAt := 5, lineItems := [] }

/-- The single line item of the C6 witness, amount 100. -/
def c6Li : InvoiceLineItem :=
  { id := 1, invoiceID := 1, entryID := 1, date := 100, description := "d"
    hours := 1, rate := 100, amount := 100 }

/-- State for the C6 witness. -/
def c6St : InvoiceState :=
  { invoices := [c6Inv], lineItems := [c6Li], nextLineItemID := 2
    entryStore := { entries := [], history := [], nextEntryID := 1, nextHistoryID := 1 } }

/-- Concrete data for the C5 witness: a paused timer owned by client 7. -/
def c5Clients : List Client :=
  [{ id := 7, name := "ACME", email := "", hourlyRate := 100, notes := "", isArchived := false }]

/-- Concrete paused timer for the C5 witness. -/
def c5Paused : ActiveTimer :=
  { clientID := 7, description := "w", startTime := 10, pausedAt := some 20
    totalPausedSeconds := 0 }

end ClaimScenarios

section StateHelpers

/-- A timer is in the Running state exactly when no pause timestamp is set. -/
theorem ActiveTimer.state_running_iff (t : ActiveTimer) :
    t.State = .running ↔ t.pausedAt = none := by
  cases h : t.pausedAt <;> simp [ActiveTimer.State, h]

/-- A timer is in the Paused state exactly when a pause timestamp is set. -/
theorem ActiveTimer.state_paused_iff (t : ActiveTimer) :
    t.State = .paused ↔ ∃ p, t.pausedAt = some p := by
  cases h : t.pausedAt <;> simp [ActiveTimer.State, h]

end StateHelpers

section Claims

/-- C4: for the timer started at t0 = 1000, paused at t0+10, resumed at
t0+40 and stopped at t0+50 under a client rate of 360/h, the persisted
entry stores `durationSeconds = 20` — the pause-excluded active time the
claim describes.  But the entry's `Duration()` is the wall span 50 s, and
`Amount()` — the quantity every billing path reads — is 5 (50 s at 360/h),
not the 2 that the claimed 20-second billed duration would give: the stored
pause-excluded duration is never consulted when billing. -/
theorem C4_elapsed_time_exclusion_divergence :
    c4StopResult.1 = .ok c4Entry ∧
    c4StopResult.2.1 = none ∧
    c4Entry.durationSeconds = some 20 ∧
    c4Entry.Duration 1050 = 50 ∧
    c4Entry.Amount 1050 = 5 ∧
    (20 : ℚ) / 3600 * 360 = 2 ∧
    (5 : ℚ) ≠ 2 := by
  refine ⟨by decide, by decide, by decide, by decide, ?_, by norm_num, by norm_num⟩
  show (if !c4Entry.isBillable then (0:ℚ)
        else ((c4Entry.Duration 1050 : ℚ) / 3600) * c4Entry.hourlyRate) = 5
  norm_num [c4Entry, TimeEntry.Duration]

/-- C8: `Amount()` is 0 for a non-billable entry, and otherwise the entry's
duration in hours times its captured rate, the duration being now minus
start for an open entry and end minus start for a closed one; a closed
2-hour entry at rate 100 with the billable flag set yields 200, and
flipping the flag yields 0 while leaving the stored duration and rate
untouched. -/
theorem C8_billable_amount (e : TimeEntry) (now : Int) :
    (e.isBillable = false → e.Amount now = 0) ∧
    (e.isBillable = true → e.endTime = none →
      e.Amount now = ((now - e.startTime : ℚ) / 3600) * e.hourlyRate) ∧
    (∀ en, e.isBillable = true → e.endTime = some en →
      e.Amount now = ((en - e.startTime : ℚ) / 3600) * e.hourlyRate) ∧
    (e.hourlyRate = 100 → e.isBillable = true → e.endTime = some (e.startTime + 7200) →
      e.Amount now = 200 ∧
      TimeEntry.Amount { e with isBillable := false } now = 0 ∧
      TimeEntry.durationSeconds { e with isBillable := false } = e.durationSeconds ∧
      TimeEntry.hourlyRate { e with isBillable := false } = e.hourlyRate) := by
  refine ⟨?_, ?_, ?_, ?_⟩
  · intro hb
    simp [TimeEntry.Amount, hb]
  · intro hb he
    simp [TimeEntry.Amount, TimeEntry.Duration, hb, he]
  · intro en hb he
    simp [TimeEntry.Amount, TimeEntry.Duration, hb, he]
  · intro hr hb he
    refine ⟨?_, ?_, rfl, rfl⟩
    · simp only [TimeEntry.Amount, TimeEntry.Duration, hb, he, hr]
      push_cast
      ring_nf
      norm_num
    · simp [TimeEntry.Amount]

/-- Witness for C8 at the concrete two-hour entry. -/
theorem C8_billable_amount_witness :
    c8Entry.Amount 9999 = 200 ∧
    TimeEntry.Amount { c8Entry with isBillable := false } 9999 = 0 ∧
    TimeEntry.durationSeconds { c8Entry with isBillable := false } = c8Entry.durationSeconds ∧
    TimeEntry.hourlyRate { c8Entry with isBillable := false } = c8Entry.hourlyRate :=
  (C8_billable_amount c8Entry 9999).2.2.2 (by decide) (by decide) (by decide)

/-- C1 counterexample: an Update call aimed at the locked entry whose
submitted value fails validation (client id 0) does not fail with a
LockedError — validation runs before the lock check, so it fails with a
ValidationError. -/
theorem C1_locked_update_counterexample :
    (EntryRepo.Update c1Store { c1Locked with clientID := 0 } "fix" 300).1
      = .error (.invalidEntry "client ID is required") ∧
    (Err.invalidEntry "client ID is required").isLockedError = false := by
  constructor
  · rfl
  · decide

/-- C1 amended: for a stored entry locked to an invoice, every Update call
aimed at it and every SoftDelete of it fails and leaves the entry table and
history table untouched; the error is the LockedError whenever the
submitted entry passes validation (SoftDelete unconditionally), and a
ValidationError otherwise. -/
theorem C1_locking_invariant (st : EntryStore) (e entry : TimeEntry)
    (id now : Int) (reason : String)
    (hrow : st.findRow id = some e) (hlocked : e.invoiceID.isSome = true)
    (hid : entry.id = id) :
    (entry.Validate = .ok () →
      EntryRepo.Update st entry reason now = (.error (.locked "update"), st)) ∧
    (EntryRepo.Update st entry reason now).2 = st ∧
    (EntryRepo.Update st entry reason now).1 ≠ .ok () ∧
    EntryRepo.SoftDelete st id reason now = (.error (.locked "delete"), st) ∧
    (Err.locked "update").isLockedError = true ∧
    (Err.locked "delete").isLockedError = true := by
  have hlock : EntryRepo.IsLocked st id = .ok true := by
    rw [EntryRepo.IsLocked, hrow]
    simp [hlocked]
  cases hv : entry.Validate with
  | error msg =>
    refine ⟨fun h => by simp [hv] at h, ?_, ?_, ?_, rfl, rfl⟩
    · simp [EntryRepo.Update, hv]
    · simp [EntryRepo.Update, hv]
    · simp [EntryRepo.SoftDelete, hlock]
  | ok u =>
    cases u
    have hupd : EntryRepo.Update st entry reason now = (.error (.locked "update"), st) := by
      simp [EntryRepo.Update, hv, hid, hlock]
    refine ⟨fun _ => hupd, by simp [hupd], by simp [hupd], ?_, rfl, rfl⟩
    simp [EntryRepo.SoftDelete, hlock]

/-- Witness for C1 at the concrete locked entry: a validating update and
the soft delete both fail with the LockedError and leave the store as it
was. -/
theorem C1_locking_invariant_witness :
    EntryRepo.Update c1Store { c1Locked with description := "x" } "r" 300
      = (.error (.locked "update"), c1Store) ∧
    EntryRepo.SoftDelete c1Store 1 "r" 300 = (.error (.locked "delete"), c1Store) := by
  have h := C1_locking_invariant c1Store c1Locked
    { c1Locked with description := "x" } 1 300 "r" (by decide) (by decide) (by decide)
  exact ⟨h.1 (by decide), h.2.2.2.1⟩

/-- C9: for a stored entry whose soft-delete flag is set and which is not
locked to any invoice, every Update call aimed at it fails — with the
"not found or already deleted" error when the submitted value validates —
and leaves the entry table and history table untouched (the transaction
rolls back before anything persists).  The primary-key hypothesis reflects
the id column's uniqueness. -/
theorem C9_soft_deleted_update_fails (st : EntryStore) (e entry : TimeEntry)
    (now : Int) (reason : String)
    (hpk : (st.entries.map (fun r => r.id)).Nodup)
    (hrow : st.findRow entry.id = some e) (hdel : e.isDeleted = true)
    (hunlocked : e.invoiceID = none) :
    (entry.Validate = .ok () →
      EntryRepo.Update st entry reason now = (.error .updateTargetMissing, st)) ∧
    (EntryRepo.Update st entry reason now).2 = st ∧
    (EntryRepo.Update st entry reason now).1 ≠ .ok () := by
  have hlock : EntryRepo.IsLocked st entry.id = .ok false := by
    rw [EntryRepo.IsLocked, hrow]
    simp [hunlocked]
  have hget : EntryRepo.GetByID st entry.id = .ok e := by
    rw [EntryRepo.GetByID, hrow]
  have hrow2 : st.entries.find? (fun r => r.id == entry.id) = some e := hrow
  have hmem : e ∈ st.entries := List.mem_of_find?_eq_some hrow2
  have hide : e.id = entry.id := by
    have := List.find?_some hrow2
    simpa using this
  have hcnt : st.entries.countP (fun r => r.id == entry.id && !r.isDeleted) = 0 := by
    apply List.countP_eq_zero.mpr
    intro r hr hp
    simp only [Bool.and_eq_true, beq_iff_eq, Bool.not_eq_true'] at hp
    have hre : r = e := List.inj_on_of_nodup_map hpk hr hmem (by rw [hp.1, hide])
    rw [hre] at hp
    simp [hdel] at hp
  cases hv : entry.Validate with
  | error msg =>
    refine ⟨fun h => by simp [hv] at h, ?_, ?_⟩
    · simp [EntryRepo.Update, hv]
    · simp [EntryRepo.Update, hv]
  | ok u =>
    cases u
    have hupd : EntryRepo.Update st entry reason now = (.error .updateTargetMissing, st) := by
      simp [EntryRepo.Update, hv, hlock, hget, hcnt]
    exact ⟨fun _ => hupd, by simp [hupd], by simp [hupd]⟩

/-- Witness for C9 at the concrete soft-deleted entry. -/
theorem C9_soft_deleted_update_fails_witness :
    EntryRepo.Update c9Store { c1Locked with invoiceID := none, description := "x" } "r" 300
      = (.error .updateTargetMissing, c9Store) := by
  have h := C9_soft_deleted_update_fails c9Store
    { c1Locked with invoiceID := none, isDeleted := true }
    { c1Locked with invoiceID := none, description := "x" } 300 "r"
    (by decide) (by decide) (by decide) (by decide)
  exact h.1 (by decide)

/-- A successful batch-lock statement rewrites the table by attaching every
eligible row. -/
theorem lockStep_some_map (entries entries2 : List TimeEntry) (inv now y : Int)
    (h : lockStep entries inv now y = some entries2) :
    entries2 = entries.map (fun r =>
      if lockable y r then { r with invoiceID := some inv, updatedAt := now } else r) := by
  unfold lockStep at h
  split at h
  · exact Option.noConfusion h
  · exact (Option.some.inj h).symm

/-- After a successful batch-lock statement for an id, no row with that id
is eligible any more. -/
theorem lockStep_countP_zero (entries entries2 : List TimeEntry) (inv now x : Int)
    (h : lockStep entries inv now x = some entries2) :
    entries2.countP (lockable x) = 0 := by
  rw [lockStep_some_map entries entries2 inv now x h]
  apply List.countP_eq_zero.mpr
  intro r hr hp
  rcases List.mem_map.mp hr with ⟨r0, _hr0, heq⟩
  by_cases hl : lockable x r0
  · rw [if_pos hl] at heq
    rw [← heq] at hp
    simp [lockable] at hp
  · rw [if_neg hl] at heq
    rw [← heq] at hp
    exact hl hp

/-- The batch-lock statement never makes a row eligible: rows it touches
become locked, rows it skips are unchanged. -/
theorem lockStep_preserves_zero (entries entries2 : List TimeEntry) (inv now x y : Int)
    (hz : entries.countP (lockable x) = 0)
    (h : lockStep entries inv now y = some entries2) :
    entries2.countP (lockable x) = 0 := by
  rw [lockStep_some_map entries entries2 inv now y h]
  apply List.countP_eq_zero.mpr
  intro r hr hp
  rcases List.mem_map.mp hr with ⟨r0, hr0, heq⟩
  by_cases hl : lockable y r0
  · rw [if_pos hl] at heq
    rw [← heq] at hp
    simp [lockable] at hp
  · rw [if_neg hl] at heq
    rw [← heq] at hp
    exact (List.countP_eq_zero.mp hz r0 hr0) hp

/-- Once no row with a given id is eligible, a batch containing that id can
no longer succeed. -/
theorem lockList_not_ok_of_mem (x : Int) :
    ∀ (ids : List Int) (entries : List TimeEntry) (inv now : Int),
      entries.countP (lockable x) = 0 → x ∈ ids →
      ∀ out, lockList entries inv now ids ≠ .ok out
  | [], _, _, _, _, hmem, _ => absurd hmem (List.not_mem_nil x)
  | y :: rest, entries, inv, now, hz, hmem, out => by
    intro h
    unfold lockList at h
    cases hs : lockStep entries inv now y with
    | none => rw [hs] at h; exact Except.noConfusion h
    | some e1 =>
      rw [hs] at h
      rcases List.mem_cons.mp hmem with hxy | hxr
      · subst hxy
        unfold lockStep at hs
        rw [if_pos hz] at hs
        exact Option.noConfusion hs
      · exact lockList_not_ok_of_mem x rest e1 inv now
          (lockStep_preserves_zero entries e1 inv now x y hz hs) hxr out h

/-- A batch that commits contains no duplicate entry id: the first
occurrence's lock makes the second occurrence fail. -/
theorem lockList_ok_nodup :
    ∀ (ids : List Int) (entries : List TimeEntry) (inv now : Int) (out : List TimeEntry),
      lockList entries inv now ids = .ok out → ids.Nodup
  | [], _, _, _, _, _ => List.nodup_nil
  | x :: rest, entries, inv, now, out, h => by
    unfold lockList at h
    cases hs : lockStep entries inv now x with
    | none => rw [hs] at h; exact Except.noConfusion h
    | some e1 =>
      rw [hs] at h
      have hrest : rest.Nodup := lockList_ok_nodup rest e1 inv now out h
      have hnx : x ∉ rest := fun hxmem =>
        lockList_not_ok_of_mem x rest e1 inv now
          (lockStep_countP_zero entries e1 inv now x hs) hxmem out h
      exact List.nodup_cons.mpr ⟨hnx, hrest⟩

/-- C10: a batch passed to LockForInvoice that repeats an entry id always
fails — after the first occurrence is locked inside the transaction the
second occurrence no longer satisfies the unlocked-and-undeleted filter —
and the rollback leaves every entry unlocked; an empty batch succeeds and
changes nothing. -/
theorem C10_duplicate_ids_poison_batch (st : EntryStore) (ids : List Int)
    (invoiceID now : Int) :
    (¬ ids.Nodup →
      (∃ badID, (EntryRepo.LockForInvoice st ids invoiceID now).1
        = .error (.lockFailed badID)) ∧
      (EntryRepo.LockForInvoice st ids invoiceID now).2 = st) ∧
    EntryRepo.LockForInvoice st [] invoiceID now = (.ok (), st) := by
  constructor
  · intro hnd
    have hne : ids.isEmpty = false := by
      cases ids with
      | nil => exact absurd List.nodup_nil hnd
      | cons a l => rfl
    cases hll : lockList st.entries invoiceID now ids with
    | ok out =>
      exact absurd (lockList_ok_nodup ids st.entries invoiceID now out hll) hnd
    | error b =>
      refine ⟨⟨b, ?_⟩, ?_⟩
      · simp [EntryRepo.LockForInvoice, hne, hll]
      · simp [EntryRepo.LockForInvoice, hne, hll]
  · rfl

/-- Witness for C10: the batch [1, 1] over a store in which entry 1 is
lockable fails and leaves the store unchanged. -/
theorem C10_duplicate_ids_poison_batch_witness :
    (∃ badID, (EntryRepo.LockForInvoice c10Store [1, 1] 9 100).1
      = .error (.lockFailed badID)) ∧
    (EntryRepo.LockForInvoice c10Store [1, 1] 9 100).2 = c10Store :=
  (C10_duplicate_ids_poison_batch c10Store [1, 1] 9 100).1 (by decide)

/-- The batch-lock statement does not change the id column. -/
theorem lockStep_map_id (entries entries2 : List TimeEntry) (inv now y : Int)
    (h : lockStep entries inv now y = some entries2) :
    entries2.map (fun r => r.id) = entries.map (fun r => r.id) := by
  rw [lockStep_some_map entries entries2 inv now y h, List.map_map]
  apply List.map_congr_left
  intro r _hr
  by_cases hl : lockable y r <;> simp [hl]

/-- Under unique ids, a successful batch-lock statement for an id leaves
the row with that id attached to the invoice. -/
theorem lockStep_locks_id (entries entries2 : List TimeEntry) (inv now x : Int)
    (hpk : (entries.map (fun r => r.id)).Nodup)
    (h : lockStep entries inv now x = some entries2) :
    ∀ r ∈ entries2, r.id = x → r.invoiceID = some inv := by
  have hex : ∃ r0 ∈ entries, lockable x r0 := by
    unfold lockStep at h
    split at h
    · exact Option.noConfusion h
    · rename_i hcnt
      exact List.countP_pos_iff.mp (by omega)
  have hmap := lockStep_some_map entries entries2 inv now x h
  intro r hr hrx
  rw [hmap] at hr
  rcases List.mem_map.mp hr with ⟨r0, hr0, heq⟩
  by_cases hl : lockable x r0
  · rw [if_pos hl] at heq
    rw [← heq]
  · rw [if_neg hl] at heq
    subst heq
    obtain ⟨re, hre, hle⟩ := hex
    have hreid : re.id = x := by
      simp only [lockable, Bool.and_eq_true, beq_iff_eq] at hle
      exact hle.1.1
    have : re = r0 := List.inj_on_of_nodup_map hpk hre hr0 (by rw [hreid, hrx])
    rw [this] at hle
    exact absurd hle hl

/-- Rows already attached to the invoice stay attached through further
batch-lock statements. -/
theorem lockStep_keeps_locked (entries entries2 : List TimeEntry) (inv now x y : Int)
    (hall : ∀ r ∈ entries, r.id = x → r.invoiceID = some inv)
    (h : lockStep entries inv now y = some entries2) :
    ∀ r ∈ entries2, r.id = x → r.invoiceID = some inv := by
  rw [lockStep_some_map entries entries2 inv now y h]
  intro r hr hrx
  rcases List.mem_map.mp hr with ⟨r0, hr0, heq⟩
  by_cases hl : lockable y r0
  · rw [if_pos hl] at heq
    rw [← heq]
  · rw [if_neg hl] at heq
    subst heq
    exact hall r0 hr0 hrx

/-- Rows already attached to the invoice stay attached through the rest of
the batch. -/
theorem lockList_keeps_locked :
    ∀ (ids : List Int) (entries : List TimeEntry) (inv now : Int)
      (out : List TimeEntry) (x : Int),
      (∀ r ∈ entries, r.id = x → r.invoiceID = some inv) →
      lockList entries inv now ids = .ok out →
      ∀ r ∈ out, r.id = x → r.invoiceID = some inv
  | [], entries, inv, now, out, x, hall, h => by
    unfold lockList at h
    injection h with h
    rw [← h]
    exact hall
  | y :: rest, entries, inv, now, out, x, hall, h => by
    unfold lockList at h
    cases hs : lockStep entries inv now y with
    | none => rw [hs] at h; exact Except.noConfusion h
    | some e1 =>
      rw [hs] at h
      exact lockList_keeps_locked rest e1 inv now out x
        (lockStep_keeps_locked entries e1 inv now x y hall hs) h

/-- Under unique ids, a committed batch leaves every listed entry attached
to the invoice. -/
theorem lockList_ok_locks :
    ∀ (ids : List Int) (entries : List TimeEntry) (inv now : Int) (out : List TimeEntry),
      (entries.map (fun r => r.id)).Nodup →
      lockList entries inv now ids = .ok out →
      ∀ x ∈ ids, ∀ r ∈ out, r.id = x → r.invoiceID = some inv
  | [], _, _, _, _, _, _ => by
    intro x hx
    exact absurd hx (List.not_mem_nil x)
  | y :: rest, entries, inv, now, out, hpk, h => by
    unfold lockList at h
    cases hs : lockStep entries inv now y with
    | none => rw [hs] at h; exact Except.noConfusion h
    | some e1 =>
      rw [hs] at h
      have hpk1 : (e1.map (fun r => r.id)).Nodup := by
        rw [lockStep_map_id entries e1 inv now y hs]
        exact hpk
      intro x hx r hr hrx
      rcases List.mem_cons.mp hx with hxy | hxr
      · subst hxy
        exact lockList_keeps_locked rest e1 inv now out x
          (lockStep_locks_id entries e1 inv now x hpk hs) h r hr hrx
      · exact lockList_ok_locks rest e1 inv now out hpk1 h x hxr r hr hrx

/-- Applying an id-preserving rewrite to every row maps the result of an
id lookup. -/
theorem find?_id_map (l : List Invoice) (k : Int) (f : Invoice → Invoice)
    (hf : ∀ i, (f i).id = i.id) :
    ∀ (i0 : Invoice), l.find? (fun i => i.id == k) = some i0 →
      (l.map f).find? (fun i => i.id == k) = some (f i0) := by
  induction l with
  | nil =>
    intro i0 h
    simp at h
  | cons a t ih =>
    intro i0 h
    simp only [List.find?] at h
    simp only [List.map_cons, List.find?]
    cases hpa : (a.id == k) with
    | true =>
      rw [hpa] at h
      have hfa : ((f a).id == k) = true := by rw [hf]; exact hpa
      rw [hfa]
      injection h with h
      rw [h]
    | false =>
      rw [hpa] at h
      have hfa : ((f a).id == k) = false := by rw [hf]; exact hpa
      rw [hfa]
      exact ih i0 h

/-- C2: Finalize is all-or-nothing.  Under the table invariants (unique
entry ids; a stored invoice passes validation), either Finalize returns
success, the invoice's stored status is Finalized, and every entry named by
one of the invoice's line items is locked to the invoice; or Finalize
returns an error and the whole state — invoices, line items, entries —
is exactly as before, so no partial lock or Draft-with-locked-entries
outcome is observable. -/
theorem C2_finalize_atomicity (st : InvoiceState) (invoiceID now : Int)
    (hpk : (st.entryStore.entries.map (fun r => r.id)).Nodup)
    (hval : ∀ inv, st.findInvoice invoiceID = some inv → inv.Validate = .ok ()) :
    ((InvoiceService.Finalize st invoiceID now).1 = .ok () →
      (∃ inv2, ((InvoiceService.Finalize st invoiceID now).2).findInvoice invoiceID
          = some inv2 ∧ inv2.status = .finalized) ∧
      (∀ li ∈ st.lineItems, li.invoiceID = invoiceID →
        ∀ r ∈ ((InvoiceService.Finalize st invoiceID now).2).entryStore.entries,
          r.id = li.entryID → r.invoiceID = some invoiceID)) ∧
    ((InvoiceService.Finalize st invoiceID now).1 ≠ .ok () →
      (InvoiceService.Finalize st invoiceID now).2 = st) := by
  cases hfind : st.findInvoice invoiceID with
  | none =>
    have hF : InvoiceService.Finalize st invoiceID now = (.error .invoiceNotFound, st) := by
      simp [InvoiceService.Finalize, hfind]
    rw [hF]
    exact ⟨fun hok => absurd hok (by simp), fun _ => rfl⟩
  | some inv =>
    have hv := hval inv hfind
    have hfind2 : st.invoices.find? (fun i => i.id == invoiceID) = some inv := hfind
    cases hedit : inv.CanEdit with
    | false =>
      have hF : InvoiceService.Finalize st invoiceID now = (.error .notEditable, st) := by
        simp [InvoiceService.Finalize, hfind, hedit]
      rw [hF]
      exact ⟨fun hok => absurd hok (by simp), fun _ => rfl⟩
    | true =>
      cases hempty : (InvoiceRepo.GetLineItems st invoiceID).isEmpty with
      | true =>
        have hF : InvoiceService.Finalize st invoiceID now = (.error .emptyInvoice, st) := by
          simp [InvoiceService.Finalize, hfind, hedit, hempty]
        rw [hF]
        exact ⟨fun hok => absurd hok (by simp), fun _ => rfl⟩
      | false =>
        rcases hLF : EntryRepo.LockForInvoice st.entryStore
            ((InvoiceRepo.GetLineItems st invoiceID).map (fun item => item.entryID))
            invoiceID now with ⟨res, es2⟩
        cases res with
        | error e =>
          have hF : InvoiceService.Finalize st invoiceID now = (.error e, st) := by
            simp [InvoiceService.Finalize, hfind, hedit, hempty, hLF]
          rw [hF]
          exact ⟨fun hok => absurd hok (by simp), fun _ => rfl⟩
        | ok u =>
          cases u
          have hne : (((InvoiceRepo.GetLineItems st invoiceID).map
              (fun item => item.entryID)).isEmpty) = false := by
            cases hit : InvoiceRepo.GetLineItems st invoiceID with
            | nil => rw [hit] at hempty; simp at hempty
            | cons a l => rfl
          obtain ⟨out, hll, hes2⟩ : ∃ out,
              lockList st.entryStore.entries invoiceID now
                ((InvoiceRepo.GetLineItems st invoiceID).map (fun item => item.entryID))
                = .ok out ∧
              es2 = { st.entryStore with entries := out } := by
            unfold EntryRepo.LockForInvoice at hLF
            rw [hne] at hLF
            simp only [Bool.false_eq_true, if_false] at hLF
            cases hll2 : lockList st.entryStore.entries invoiceID now
                ((InvoiceRepo.GetLineItems st invoiceID).map (fun item => item.entryID)) with
            | error b => rw [hll2] at hLF; exact absurd (congrArg Prod.fst hLF) (by simp)
            | ok out2 =>
              rw [hll2] at hLF
              exact ⟨out2, rfl, (congrArg Prod.snd hLF).symm⟩
          have hinvmem : inv ∈ st.invoices := List.mem_of_find?_eq_some hfind2
          have hinvid : inv.id = invoiceID := by
            have := List.find?_some hfind2
            simpa using this
          have hFid : (inv.FinalizeStatus now).id = inv.id := by
            unfold Invoice.FinalizeStatus
            split <;> rfl
          have hvalF : (inv.FinalizeStatus now).Validate = .ok () := by
            unfold Invoice.FinalizeStatus
            split <;> exact hv
          have hstatus : inv.status = .draft := by
            have : decide (inv.status = .draft) = true := hedit
            simpa using this
          have hcnt : ¬ (st.invoices.countP
              (fun i => i.id == (inv.FinalizeStatus now).id) = 0) := by
            have : 0 < st.invoices.countP (fun i => i.id == (inv.FinalizeStatus now).id) :=
              List.countP_pos_iff.mpr ⟨inv, hinvmem, by rw [hFid]; simp⟩
            omega
          have hUpd : InvoiceRepo.Update { st with entryStore := es2 }
              (inv.FinalizeStatus now) now
              = (.ok (),
                  { st with
                      entryStore := es2,
                      invoices := st.invoices.map (fun i =>
                        if i.id == (inv.FinalizeStatus now).id then
                          { inv.FinalizeStatus now with updatedAt := now, lineItems := [] }
                        else i) }) := by
            simp only [InvoiceRepo.Update, hvalF]
            rw [if_neg hcnt]
          have hF : InvoiceService.Finalize st invoiceID now
              = (.ok (),
                  { st with
                      entryStore := es2,
                      invoices := st.invoices.map (fun i =>
                        if i.id == (inv.FinalizeStatus now).id then
                          { inv.FinalizeStatus now with updatedAt := now, lineItems := [] }
                        else i) }) := by
            simp only [InvoiceService.Finalize, hfind, hedit, Bool.not_true,
              Bool.false_eq_true, if_false, hempty, hLF, hUpd]
          rw [hF]
          constructor
          · intro _
            constructor
            · refine ⟨{ inv.FinalizeStatus now with updatedAt := now, lineItems := [] },
                ?_, ?_⟩
              · have hfmap := find?_id_map st.invoices invoiceID
                  (fun i => if i.id == (inv.FinalizeStatus now).id then
                    { inv.FinalizeStatus now with updatedAt := now, lineItems := [] }
                  else i)
                  (by
                    intro i
                    by_cases hc : (i.id == (inv.FinalizeStatus now).id) = true
                    · have h2 : i.id = (inv.FinalizeStatus now).id := by simpa using hc
                      simp only [if_pos hc]
                      exact h2.symm
                    · simp only [if_neg hc])
                  inv hfind2
                have hfinv : (if (inv.id == (inv.FinalizeStatus now).id) = true then
                    { inv.FinalizeStatus now with updatedAt := now, lineItems := [] }
                  else inv)
                    = { inv.FinalizeStatus now with updatedAt := now, lineItems := [] } := by
                  rw [if_pos (by rw [hFid]; simp)]
                show (st.invoices.map (fun i =>
                    if i.id == (inv.FinalizeStatus now).id then
                      { inv.FinalizeStatus now with updatedAt := now, lineItems := [] }
                    else i)).find? (fun i => i.id == invoiceID)
                  = some { inv.FinalizeStatus now with updatedAt := now, lineItems := [] }
                exact hfmap.trans (congrArg some hfinv)
              · show (inv.FinalizeStatus now).status = .finalized
                unfold Invoice.FinalizeStatus
                rw [if_pos hstatus]
            · intro li hli hliinv r hr hrid
              have hmemitems : li ∈ InvoiceRepo.GetLineItems st invoiceID :=
                List.mem_filter.mpr ⟨hli, by simp [hliinv]⟩
              have hmemids : li.entryID ∈ (InvoiceRepo.GetLineItems st invoiceID).map
                  (fun item => item.entryID) := List.mem_map_of_mem _ hmemitems
              have hrout : r ∈ out := by
                have : ({ st with entryStore := es2 }).entryStore.entries = out := by
                  rw [hes2]
                rw [← this]
                exact hr
              exact lockList_ok_locks _ _ _ _ _ hpk hll li.entryID hmemids r hrout hrid
          · intro hne2
            exact absurd rfl hne2

/-- Witness for C2: finalizing the concrete one-line-item draft succeeds,
the stored invoice becomes Finalized, and entry 1 ends locked to it. -/
theorem C2_finalize_atomicity_witness :
    (InvoiceService.Finalize c2St 1 500).1 = .ok () ∧
    (∃ inv2, ((InvoiceService.Finalize c2St 1 500).2).findInvoice 1 = some inv2 ∧
      inv2.status = .finalized) ∧
    (∀ r ∈ ((InvoiceService.Finalize c2St 1 500).2).entryStore.entries,
      r.id = 1 → r.invoiceID = some 1) := by
  have h := C2_finalize_atomicity c2St 1 500 (by decide)
    (by
      intro inv hinv
      have h0 : c2St.findInvoice 1 = some c2Inv := by decide
      rw [h0] at hinv
      injection hinv with h1
      rw [← h1]
      decide)
  have hok : (InvoiceService.Finalize c2St 1 500).1 = .ok () := by decide
  refine ⟨hok, (h.1 hok).1, ?_⟩
  intro r hr hrid
  exact (h.1 hok).2 c2Li (by decide) (by decide) r hr hrid

/-- A typed-guard audit segment collapses to a single guard on the rendered
values (when the rendering respects the typed equality). -/
theorem segment_eq {α : Type} [DecidableEq α] (a b : α) (R : α → String) (n : String)
    (hR : a = b → R a = R b) :
    (if a = b then [] else insertHistory n (R a) (R b))
      = if R a = R b then ([] : List HistoryPayload) else [⟨n, R a, R b⟩] := by
  by_cases hab : a = b
  · rw [if_pos hab, if_pos (hR hab)]
  · rw [if_neg hab]
    rfl

/-- createAuditRecords in canonical form: one single-guard segment per
audited field, guarded by its rendered comparison. -/
theorem createAuditRecords_canonical (old new : TimeEntry) :
    createAuditRecords old new
      = (if intToString old.clientID = intToString new.clientID then []
         else [⟨"client_id", intToString old.clientID, intToString new.clientID⟩])
        ++ (if old.description = new.description then []
            else [⟨"description", old.description, new.description⟩])
        ++ (if formatTimeS old.startTime = formatTimeS new.startTime then []
            else [⟨"start_time", formatTimeS old.startTime, formatTimeS new.startTime⟩])
        ++ (if renderEnd old = renderEnd new then []
            else [⟨"end_time", renderEnd old, renderEnd new⟩])
        ++ (if formatMoney old.hourlyRate = formatMoney new.hourlyRate then []
            else [⟨"hourly_rate", formatMoney old.hourlyRate, formatMoney new.hourlyRate⟩])
        ++ (if formatBool old.isBillable = formatBool new.isBillable then []
            else [⟨"is_billable", formatBool old.isBillable, formatBool new.isBillable⟩]) := by
  unfold createAuditRecords
  rw [segment_eq old.clientID new.clientID intToString "client_id" (fun h => by rw [h]),
    segment_eq old.description new.description (fun s => s) "description" (fun h => by rw [h]),
    segment_eq old.startTime new.startTime formatTimeS "start_time" (fun h => by rw [h]),
    segment_eq (renderEnd old) (renderEnd new) (fun s => s) "end_time" (fun h => by rw [h]),
    segment_eq old.hourlyRate new.hourlyRate formatMoney "hourly_rate" (fun h => by rw [h]),
    segment_eq old.isBillable new.isBillable formatBool "is_billable" (fun h => by rw [h])]

/-- Count of a single-guard segment under its own field name. -/
theorem countP_seg_self (c : Prop) [Decidable c] (n x y : String) :
    ((if c then ([] : List HistoryPayload) else [⟨n, x, y⟩]).countP
      (fun p => p.fieldName == n)) = if c then 0 else 1 := by
  by_cases hc : c <;> simp [hc]

/-- Count of a single-guard segment under a different field name. -/
theorem countP_seg_other (c : Prop) [Decidable c] (m x y n : String)
    (hm : (m == n) = false) :
    ((if c then ([] : List HistoryPayload) else [⟨m, x, y⟩]).countP
      (fun p => p.fieldName == n)) = 0 := by
  by_cases hc : c <;> simp [hc, hm]

/-- Membership in a single-guard segment pins the payload down. -/
theorem mem_seg {p row : HistoryPayload} (c : Prop) [Decidable c]
    (h : p ∈ (if c then ([] : List HistoryPayload) else [row])) : p = row := by
  by_cases hc : c
  · rw [if_pos hc] at h
    simp at h
  · rw [if_neg hc] at h
    simpa using h

/-- createAuditRecords holds exactly one payload for an audited field whose
rendering changed, none for one whose rendering did not. -/
theorem createAuditRecords_countP (old new : TimeEntry) (f : AuditField) :
    (createAuditRecords old new).countP (fun p => p.fieldName == f.fieldName)
      = if auditRender f old = auditRender f new then 0 else 1 := by
  rw [createAuditRecords_canonical]
  simp only [List.countP_append]
  cases f <;>
    simp only [AuditField.fieldName, auditRender] <;>
    rw [countP_seg_self] <;>
    repeat rw [countP_seg_other _ _ _ _ _ (by decide)]
  all_goals omega

/-- createAuditRecords never mentions duration_seconds. -/
theorem createAuditRecords_duration (old new : TimeEntry) :
    (createAuditRecords old new).countP
      (fun p => p.fieldName == "duration_seconds") = 0 := by
  rw [createAuditRecords_canonical]
  simp only [List.countP_append]
  repeat rw [countP_seg_other _ _ _ _ _ (by decide)]

/-- Every payload createAuditRecords builds is the record of one audited
field: its name, and the old and new renderings. -/
theorem createAuditRecords_mem (old new : TimeEntry) :
    ∀ p ∈ createAuditRecords old new, ∃ f : AuditField,
      p.fieldName = f.fieldName ∧ p.oldValue = auditRender f old ∧
      p.newValue = auditRender f new := by
  rw [createAuditRecords_canonical]
  intro p hp
  simp only [List.append_assoc, List.mem_append] at hp
  rcases hp with h | h | h | h | h | h
  · exact ⟨.clientId, by rw [mem_seg _ h]; exact ⟨rfl, rfl, rfl⟩⟩
  · exact ⟨.description, by rw [mem_seg _ h]; exact ⟨rfl, rfl, rfl⟩⟩
  · exact ⟨.startTime, by rw [mem_seg _ h]; exact ⟨rfl, rfl, rfl⟩⟩
  · exact ⟨.endTime, by rw [mem_seg _ h]; exact ⟨rfl, rfl, rfl⟩⟩
  · exact ⟨.hourlyRate, by rw [mem_seg _ h]; exact ⟨rfl, rfl, rfl⟩⟩
  · exact ⟨.isBillable, by rw [mem_seg _ h]; exact ⟨rfl, rfl, rfl⟩⟩

/-- Materializing payloads as rows preserves the per-field-name counts. -/
theorem mkHistoryRows_countP (eid : Int) (reason : String) (now : Int)
    (q : String → Bool) :
    ∀ (ps : List HistoryPayload) (nid : Int),
      (mkHistoryRows nid eid reason now ps).countP (fun h => q h.fieldName)
        = ps.countP (fun p => q p.fieldName)
  | [], _ => rfl
  | p :: ps, nid => by
    simp [mkHistoryRows, List.countP_cons,
      mkHistoryRows_countP eid reason now q ps (nid + 1)]

/-- Every materialized row carries one payload's fields together with the
call's reason, entry id and timestamp. -/
theorem mkHistoryRows_mem (eid : Int) (reason : String) (now : Int) :
    ∀ (ps : List HistoryPayload) (nid : Int) (h : HistoryRow),
      h ∈ mkHistoryRows nid eid reason now ps →
      (∃ p ∈ ps, h.fieldName = p.fieldName ∧ h.oldValue = p.oldValue ∧
        h.newValue = p.newValue) ∧
      h.changeReason = reason ∧ h.entryID = eid ∧ h.changedAt = now
  | [], _, h, hmem => by simp [mkHistoryRows] at hmem
  | p :: ps, nid, h, hmem => by
    simp only [mkHistoryRows, List.mem_cons] at hmem
    rcases hmem with hh | hh
    · subst hh
      exact ⟨⟨p, List.mem_cons_self p ps, rfl, rfl, rfl⟩, rfl, rfl, rfl⟩
    · obtain ⟨⟨p2, hp2, hf⟩, hrest⟩ := mkHistoryRows_mem eid reason now ps (nid + 1) h hh
      exact ⟨⟨p2, List.mem_cons_of_mem p hp2, hf⟩, hrest⟩

/-- C3 amended: a successful Update appends, atomically with the column
update, exactly one history row per audited field (client_id, description,
start_time, end_time, hourly_rate, is_billable) whose stored rendering
changed — recording the old and new renderings and the caller's reason —
and no row for a field whose rendering did not change; the unaudited
duration_seconds column never produces a row; and a failed Update leaves
the store, history included, exactly as it was. -/
theorem C3_audit_completeness (st : EntryStore) (entry : TimeEntry)
    (reason : String) (now : Int) :
    (∀ old st2,
      st.findRow entry.id = some old →
      EntryRepo.Update st entry reason now = (.ok (), st2) →
      ∃ rows : List HistoryRow,
        st2.history = st.history ++ rows ∧
        (∀ f : AuditField,
          rows.countP (fun h => h.fieldName == f.fieldName)
            = if auditRender f old = auditRender f entry then 0 else 1) ∧
        (∀ h ∈ rows,
          (∃ f : AuditField, h.fieldName = f.fieldName ∧
            h.oldValue = auditRender f old ∧ h.newValue = auditRender f entry) ∧
          h.changeReason = reason ∧ h.entryID = entry.id ∧ h.changedAt = now) ∧
        rows.countP (fun h => h.fieldName == "duration_seconds") = 0) ∧
    ((EntryRepo.Update st entry reason now).1 ≠ .ok () →
      (EntryRepo.Update st entry reason now).2 = st) := by
  constructor
  · intro old st2 hold hok
    cases hv : entry.Validate with
    | error msg =>
      simp [EntryRepo.Update, hv] at hok
    | ok u =>
      cases u
      have hIs : EntryRepo.IsLocked st entry.id = .ok old.invoiceID.isSome := by
        rw [EntryRepo.IsLocked, hold]
      have hGet : EntryRepo.GetByID st entry.id = .ok old := by
        rw [EntryRepo.GetByID, hold]
      cases hlk : old.invoiceID.isSome with
      | true =>
        rw [hlk] at hIs
        simp [EntryRepo.Update, hv, hIs] at hok
      | false =>
        rw [hlk] at hIs
        by_cases hcnt : st.entries.countP (fun r => r.id == entry.id && !r.isDeleted) = 0
        · simp [EntryRepo.Update, hv, hIs, hGet, hcnt] at hok
        · have hupd : EntryRepo.Update st entry reason now
              = (.ok (), EntryStore.attachHistory
                  { st with entries := st.entries.map (fun r =>
                      if r.id == entry.id && !r.isDeleted then applyUpdate r entry now
                      else r) }
                  entry.id reason now (createAuditRecords old entry)) := by
            simp only [EntryRepo.Update, hv, hIs, hGet, if_neg hcnt]
          rw [hupd] at hok
          injection hok with _h1 hst2
          refine ⟨mkHistoryRows st.nextHistoryID entry.id reason now
            (createAuditRecords old entry), ?_, ?_, ?_, ?_⟩
          · rw [← hst2]
            rfl
          · intro f
            rw [mkHistoryRows_countP entry.id reason now (fun s => s == f.fieldName)
              (createAuditRecords old entry) st.nextHistoryID]
            exact createAuditRecords_countP old entry f
          · intro h hmem
            obtain ⟨⟨p, hp, hf1, hf2, hf3⟩, hr1, hr2, hr3⟩ :=
              mkHistoryRows_mem entry.id reason now (createAuditRecords old entry)
                st.nextHistoryID h hmem
            obtain ⟨f, hpf, hpo, hpn⟩ := createAuditRecords_mem old entry p hp
            exact ⟨⟨f, hf1.trans hpf, hf2.trans hpo, hf3.trans hpn⟩, hr1, hr2, hr3⟩
          · rw [mkHistoryRows_countP entry.id reason now
              (fun s => s == "duration_seconds") (createAuditRecords old entry)
              st.nextHistoryID]
            exact createAuditRecords_duration old entry
  · intro hne
    cases hv : entry.Validate with
    | error msg => simp [EntryRepo.Update, hv]
    | ok u =>
      cases u
      cases hIs : EntryRepo.IsLocked st entry.id with
      | error e => simp [EntryRepo.Update, hv, hIs]
      | ok b =>
        cases b with
        | true => simp [EntryRepo.Update, hv, hIs]
        | false =>
          cases hGet : EntryRepo.GetByID st entry.id with
          | error e => simp [EntryRepo.Update, hv, hIs, hGet]
          | ok old =>
            by_cases hcnt : st.entries.countP
                (fun r => r.id == entry.id && !r.isDeleted) = 0
            · simp [EntryRepo.Update, hv, hIs, hGet, hcnt]
            · exact absurd (by simp [EntryRepo.Update, hv, hIs, hGet, hcnt]) hne

/-- C3 counterexample: an Update that changes only durationSeconds (3600
to 7200) succeeds and persists the new duration, yet writes no
EntryHistory row at all — the claimed "exactly one row per changed field"
fails for the duration_seconds field. -/
theorem C3_duration_not_audited_counterexample :
    (EntryRepo.Update c3Store { c3Entry with durationSeconds := some 7200 }
      "fix" 300).1 = .ok () ∧
    ((EntryRepo.Update c3Store { c3Entry with durationSeconds := some 7200 }
      "fix" 300).2).history = [] ∧
    ((EntryRepo.Update c3Store { c3Entry with durationSeconds := some 7200 }
      "fix" 300).2).entries.map (fun r => r.durationSeconds) = [some 7200] ∧
    c3Entry.durationSeconds = some 3600 := by decide

/-- Witness for C3: a successful concrete update (new description) yields
rows satisfying the amended audit characterization. -/
theorem C3_audit_completeness_witness :
    ∃ rows : List HistoryRow,
      ((EntryRepo.Update c3Store { c3Entry with description := "e" } "edit" 400).2).history
        = c3Store.history ++ rows ∧
      (∀ f : AuditField,
        rows.countP (fun h => h.fieldName == f.fieldName)
          = if auditRender f c3Entry = auditRender f { c3Entry with description := "e" }
            then 0 else 1) ∧
      (∀ h ∈ rows,
        (∃ f : AuditField, h.fieldName = f.fieldName ∧
          h.oldValue = auditRender f c3Entry ∧
          h.newValue = auditRender f { c3Entry with description := "e" }) ∧
        h.changeReason = "edit" ∧ h.entryID = TimeEntry.id { c3Entry with description := "e" } ∧
        h.changedAt = 400) ∧
      rows.countP (fun h => h.fieldName == "duration_seconds") = 0 :=
  (C3_audit_completeness c3Store { c3Entry with description := "e" } "edit" 400).1
    c3Entry
    ((EntryRepo.Update c3Store { c3Entry with description := "e" } "edit" 400).2)
    (by decide) (by decide)

/-- Characterization of one successful service CalculateTotals call: the
stored row becomes the recomputed invoice. -/
theorem CalculateTotals_ok (st : InvoiceState) (invoiceID : Int) (taxRate : ℚ)
    (now : Int) (inv : Invoice)
    (hfind : st.findInvoice invoiceID = some inv)
    (hval : (Invoice.CalculateTotals
        { inv with lineItems := InvoiceRepo.GetLineItems st invoiceID
                   taxRate := taxRate } now).Validate = .ok ()) :
    InvoiceService.CalculateTotals st invoiceID taxRate now
      = (.ok (),
          { st with
              invoices := st.invoices.map (fun i =>
                if i.id == inv.id then
                  { Invoice.CalculateTotals
                      { inv with lineItems := InvoiceRepo.GetLineItems st invoiceID
                                 taxRate := taxRate } now with
                      updatedAt := now, lineItems := [] }
                else i) }) := by
  have hfind2 : st.invoices.find? (fun i => i.id == invoiceID) = some inv := hfind
  have hmem : inv ∈ st.invoices := List.mem_of_find?_eq_some hfind2
  have hid : inv.id = invoiceID := by
    have := List.find?_some hfind2
    simpa using this
  have hcnt : ¬ (st.invoices.countP (fun i => i.id ==
      (Invoice.CalculateTotals
        { inv with lineItems := InvoiceRepo.GetLineItems st invoiceID
                   taxRate := taxRate } now).id) = 0) := by
    have : 0 < st.invoices.countP (fun i => i.id ==
        (Invoice.CalculateTotals
          { inv with lineItems := InvoiceRepo.GetLineItems st invoiceID
                     taxRate := taxRate } now).id) :=
      List.countP_pos_iff.mpr ⟨inv, hmem, by
        show (inv.id == (Invoice.CalculateTotals _ _).id) = true
        simp [Invoice.CalculateTotals]⟩
    omega
  simp only [InvoiceService.CalculateTotals, hfind, InvoiceRepo.Update, hval,
    if_neg hcnt]
  rfl

/-- After the stored row is replaced by the recomputed invoice, looking the
invoice up returns that recomputed row. -/
theorem CalculateTotals_find (st : InvoiceState) (invoiceID : Int) (taxRate : ℚ)
    (now : Int) (inv : Invoice)
    (hfind2 : st.invoices.find? (fun i => i.id == invoiceID) = some inv) :
    ({ st with invoices := st.invoices.map (fun i =>
        if i.id == inv.id then
          { Invoice.CalculateTotals
              { inv with lineItems := InvoiceRepo.GetLineItems st invoiceID
                         taxRate := taxRate } now with
              updatedAt := now, lineItems := [] }
        else i) } : InvoiceState).findInvoice invoiceID
      = some { Invoice.CalculateTotals
          { inv with lineItems := InvoiceRepo.GetLineItems st invoiceID
                     taxRate := taxRate } now with
          updatedAt := now, lineItems := [] } := by
  have hfmap := find?_id_map st.invoices invoiceID
    (fun i => if i.id == inv.id then
      { Invoice.CalculateTotals
          { inv with lineItems := InvoiceRepo.GetLineItems st invoiceID
                     taxRate := taxRate } now with
          updatedAt := now, lineItems := [] }
      else i)
    (by
      intro i
      by_cases hc : (i.id == inv.id) = true
      · have h2 : i.id = inv.id := by simpa using hc
        simp only [if_pos hc]
        exact h2.symm
      · simp only [if_neg hc])
    inv hfind2
  have hfinv : (if (inv.id == inv.id) = true then
      { Invoice.CalculateTotals
          { inv with lineItems := InvoiceRepo.GetLineItems st invoiceID
                     taxRate := taxRate } now with
          updatedAt := now, lineItems := [] }
      else inv)
      = { Invoice.CalculateTotals
          { inv with lineItems := InvoiceRepo.GetLineItems st invoiceID
                     taxRate := taxRate } now with
          updatedAt := now, lineItems := [] } := by
    rw [if_pos (by simp)]
  exact hfmap.trans (congrArg some hfinv)

/-- C6: a successful CalculateTotals stores subtotal = sum of the invoice's
line-item amounts, tax = subtotal times the rate, and total = subtotal plus
tax; and a second call with the same rate and unchanged line items stores
the same three figures again. -/
theorem C6_totals_idempotent (st : InvoiceState) (invoiceID : Int)
    (taxRate : ℚ) (now now2 : Int) (inv : Invoice)
    (hfind : st.findInvoice invoiceID = some inv)
    (hval : (Invoice.CalculateTotals
        { inv with lineItems := InvoiceRepo.GetLineItems st invoiceID
                   taxRate := taxRate } now).Validate = .ok ()) :
    ∃ st1 inv1,
      InvoiceService.CalculateTotals st invoiceID taxRate now = (.ok (), st1) ∧
      st1.findInvoice invoiceID = some inv1 ∧
      inv1.subtotal
        = ((InvoiceRepo.GetLineItems st invoiceID).map (fun item => item.amount)).sum ∧
      inv1.taxAmount = inv1.subtotal * taxRate ∧
      inv1.total = inv1.subtotal + inv1.taxAmount ∧
      ∃ st2 inv2,
        InvoiceService.CalculateTotals st1 invoiceID taxRate now2 = (.ok (), st2) ∧
        st2.findInvoice invoiceID = some inv2 ∧
        inv2.subtotal = inv1.subtotal ∧
        inv2.taxAmount = inv1.taxAmount ∧
        inv2.total = inv1.total := by
  have hfind2 : st.invoices.find? (fun i => i.id == invoiceID) = some inv := hfind
  have h1 := CalculateTotals_ok st invoiceID taxRate now inv hfind hval
  have hfindA := CalculateTotals_find st invoiceID taxRate now inv hfind2
  refine ⟨_, _, h1, hfindA, rfl, rfl, rfl, ?_⟩
  have h2 := CalculateTotals_ok _ invoiceID taxRate now2 _ hfindA (by exact hval)
  have hfindB := CalculateTotals_find _ invoiceID taxRate now2 _ hfindA
  exact ⟨_, _, h2, hfindB, rfl, rfl, rfl⟩

/-- Witness for C6: one line item of amount 100 at tax rate 0.10 gives
subtotal 100, tax 10, total 110, and the repeated call reproduces them. -/
theorem C6_totals_idempotent_witness :
    ∃ st1 inv1,
      InvoiceService.CalculateTotals c6St 1 ((1 : ℚ)/10) 50 = (.ok (), st1) ∧
      st1.findInvoice 1 = some inv1 ∧
      inv1.subtotal = 100 ∧ inv1.taxAmount = 10 ∧ inv1.total = 110 ∧
      ∃ st2 inv2,
        InvoiceService.CalculateTotals st1 1 ((1 : ℚ)/10) 60 = (.ok (), st2) ∧
        st2.findInvoice 1 = some inv2 ∧
        inv2.subtotal = inv1.subtotal ∧ inv2.taxAmount = inv1.taxAmount ∧
        inv2.total = inv1.total := by
  obtain ⟨st1, inv1, hA, hB, hC, hD, hE, hF⟩ :=
    C6_totals_idempotent c6St 1 ((1 : ℚ)/10) 50 60 c6Inv (by decide)
      (by
        norm_num [Invoice.Validate, Invoice.CalculateTotals, c6Inv]
        exact fun h => absurd h (by simp))
  have hitems : InvoiceRepo.GetLineItems c6St 1 = [c6Li] := by decide
  have hsub : inv1.subtotal = 100 := by
    rw [hC, hitems]
    norm_num [c6Li]
  have htax : inv1.taxAmount = 10 := by
    rw [hD, hsub]
    norm_num
  have htot : inv1.total = 110 := by
    rw [hE, hsub, htax]
    norm_num
  exact ⟨st1, inv1, hA, hB, hsub, htax, htot, hF⟩

/-- The fuel argument of natToDigitsAux is irrelevant once sufficient. -/
theorem natToDigitsAux_stable :
    ∀ (fuel fuel2 n : Nat), n < fuel → n < fuel2 →
      natToDigitsAux fuel n = natToDigitsAux fuel2 n
  | 0, _, _, h, _ => absurd h (by omega)
  | _ + 1, 0, _, _, h2 => absurd h2 (by omega)
  | fuel + 1, fuel2 + 1, n, h, h2 => by
    simp only [natToDigitsAux]
    by_cases hn : n < 10
    · rw [if_pos hn, if_pos hn]
    · rw [if_neg hn, if_neg hn,
        natToDigitsAux_stable fuel fuel2 (n / 10) (by omega) (by omega)]

/-- Unfolding equation for natToDigits. -/
theorem natToDigits_eq (n : Nat) :
    natToDigits n = if n < 10 then [Nat.digitChar n]
      else natToDigits (n / 10) ++ [Nat.digitChar (n % 10)] := by
  show natToDigitsAux (n + 1) n = _
  rw [natToDigitsAux]
  by_cases hn : n < 10
  · rw [if_pos hn, if_pos hn]
  · rw [if_neg hn, if_neg hn,
      natToDigitsAux_stable n (n / 10 + 1) (n / 10) (by omega) (by omega)]
    rfl

/-- digitChar sends digits to digit characters. -/
theorem digitChar_isDigit : ∀ d, d < 10 → (Nat.digitChar d).isDigit = true := by
  decide

/-- digitChar's character code on digits. -/
theorem digitChar_toNat : ∀ d, d < 10 → (Nat.digitChar d).toNat = d + 48 := by
  decide

/-- Every character of a decimal rendering is a digit. -/
theorem natToDigits_all_digit (n : Nat) : ∀ c ∈ natToDigits n, c.isDigit = true := by
  induction n using Nat.strong_induction_on with
  | _ n ih =>
    rw [natToDigits_eq]
    by_cases hn : n < 10
    · rw [if_pos hn]
      intro c hc
      rw [List.mem_singleton.mp hc]
      exact digitChar_isDigit n hn
    · rw [if_neg hn]
      intro c hc
      rcases List.mem_append.mp hc with h | h
      · exact ih (n / 10) (by omega) c h
      · rw [List.mem_singleton.mp h]
        exact digitChar_isDigit (n % 10) (by omega)

/-- A decimal rendering is never empty. -/
theorem natToDigits_ne_nil (n : Nat) : natToDigits n ≠ [] := by
  rw [natToDigits_eq]
  by_cases hn : n < 10
  · rw [if_pos hn]
    exact List.cons_ne_nil _ _
  · rw [if_neg hn]
    simp

/-- The 03d rendering of a sequence below 1000 is its three digit
characters. -/
theorem sprintf03d_lt1000 (s : Nat) (hs : s < 1000) :
    sprintf03d s = [Nat.digitChar (s / 100), Nat.digitChar (s / 10 % 10),
      Nat.digitChar (s % 10)] := by
  rw [sprintf03d, if_pos hs]

/-- Every character of a 03d rendering below 1000 is a digit. -/
theorem sprintf03d_all_digit (s : Nat) (hs : s < 1000) :
    ∀ c ∈ sprintf03d s, c.isDigit = true := by
  rw [sprintf03d_lt1000 s hs]
  intro c hc
  rcases List.mem_cons.mp hc with h | hc
  · rw [h]
    exact digitChar_isDigit _ (by omega)
  rcases List.mem_cons.mp hc with h | hc
  · rw [h]
    exact digitChar_isDigit _ (by omega)
  · rw [List.mem_singleton.mp hc]
    exact digitChar_isDigit _ (by omega)

/-- Scanning the three digit characters of a 03d rendering recovers the
sequence. -/
theorem digitsToNat_sprintf03d (s : Nat) (hs : s < 1000) :
    digitsToNat (sprintf03d s) = s := by
  rw [sprintf03d_lt1000 s hs]
  show List.foldl _ 0 _ = s
  simp only [List.foldl]
  rw [digitChar_toNat _ (by omega : s / 100 < 10),
    digitChar_toNat _ (by omega : s / 10 % 10 < 10),
    digitChar_toNat _ (by omega : s % 10 < 10)]
  omega

/-- Byte order ignores a common prefix. -/
theorem charsLt_append (p : List Char) :
    ∀ (a b : List Char), charsLt (p ++ a) (p ++ b) = charsLt a b := by
  induction p with
  | nil => intro a b; rfl
  | cons c p ih =>
    intro a b
    show charsLt (c :: (p ++ a)) (c :: (p ++ b)) = charsLt a b
    rw [charsLt, if_neg (by omega), if_neg (by omega)]
    exact ih a b

/-- Byte order on 03d renderings below 1000 is numeric order. -/
theorem sprintf03d_lt (a b : Nat) (ha : a < 1000) (hb : b < 1000) :
    charsLt (sprintf03d a) (sprintf03d b) = true ↔ a < b := by
  rw [sprintf03d_lt1000 a ha, sprintf03d_lt1000 b hb]
  rw [charsLt, charsLt, charsLt, charsLt]
  rw [digitChar_toNat _ (by omega : a / 100 < 10),
    digitChar_toNat _ (by omega : b / 100 < 10),
    digitChar_toNat _ (by omega : a / 10 % 10 < 10),
    digitChar_toNat _ (by omega : b / 10 % 10 < 10),
    digitChar_toNat _ (by omega : a % 10 < 10),
    digitChar_toNat _ (by omega : b % 10 < 10)]
  split_ifs <;> simp <;> omega

/-- A decimal rendering is never the empty character list. -/
theorem natToDigits_isEmpty (n : Nat) : (natToDigits n).isEmpty = false := by
  cases h : natToDigits n with
  | nil => exact absurd h (natToDigits_ne_nil n)
  | cons c t => rfl

/-- takeWhile passes over a block that satisfies the predicate. -/
theorem takeWhile_all_append (p : Char → Bool) :
    ∀ (l t : List Char), (∀ c ∈ l, p c = true) →
      (l ++ t).takeWhile p = l ++ t.takeWhile p := by
  intro l t h
  induction l with
  | nil => rfl
  | cons c l ih =>
    rw [List.cons_append, List.takeWhile_cons, h c (List.mem_cons_self c l)]
    rw [ih (fun c hc => h c (List.mem_cons_of_mem _ hc))]
    rfl

/-- takeWhile keeps a list every character of which satisfies the
predicate. -/
theorem takeWhile_all (p : Char → Bool) (l : List Char)
    (h : ∀ c ∈ l, p c = true) : l.takeWhile p = l := by
  have h2 := takeWhile_all_append p l [] h
  simpa using h2

/-- A pattern LIKE-matches anything it prefixes. -/
theorem likePrefix_append (p t : List Char) : likePrefix p (p ++ t) = true := by
  unfold likePrefix
  rw [List.map_append, List.isPrefixOf_iff_prefix]
  exact List.prefix_append _ _

/-- The stored form of a canonical invoice number: the scan pattern
followed by the 03d sequence. -/
theorem mkInvoiceNumber_data (pfx : String) (year : Int) (x : Nat) :
    (mkInvoiceNumber pfx year x).data
      = (pfx ++ "-" ++ intToString year ++ "-").data ++ sprintf03d x := by
  simp [mkInvoiceNumber, String.data_append, List.append_assoc]

/-- The scan pattern's characters, for a nonnegative year: the prefix, a
dash, the year digits, a dash. -/
theorem pat_data (pfx : String) (year : Int) (hy : 0 ≤ year) :
    (pfx ++ "-" ++ intToString year ++ "-").data
      = (pfx.data ++ ['-']) ++ (natToDigits year.natAbs ++ ['-']) := by
  rw [intToString, if_neg (by omega : ¬ year < 0)]
  simp [String.data_append, List.append_assoc]

/-- Parsing a canonical invoice number recovers its sequence. -/
theorem parseSeq_canonical (pfx : String) (year : Int) (x : Nat)
    (hy : 0 ≤ year) (hx : x ≤ 999) :
    ∃ y, parseSeq pfx (mkInvoiceNumber pfx year x) = some (y, x) := by
  have hdata : (mkInvoiceNumber pfx year x).data
      = (pfx.data ++ ['-']) ++ (natToDigits year.natAbs ++ ('-' :: sprintf03d x)) := by
    rw [mkInvoiceNumber_data, pat_data pfx year hy]
    simp [List.append_assoc]
  have hpre : (pfx.data ++ ['-']).isPrefixOf
      ((pfx.data ++ ['-']) ++ (natToDigits year.natAbs ++ ('-' :: sprintf03d x)))
      = true := by
    rw [List.isPrefixOf_iff_prefix]
    exact List.prefix_append _ _
  have hdash : Char.isDigit '-' = false := by decide
  have htw : (natToDigits year.natAbs ++ ('-' :: sprintf03d x)).takeWhile Char.isDigit
      = natToDigits year.natAbs := by
    rw [takeWhile_all_append Char.isDigit _ _ (natToDigits_all_digit year.natAbs)]
    rw [List.takeWhile_cons, hdash]
    simp
  have htw2 : (sprintf03d x).takeWhile Char.isDigit = sprintf03d x :=
    takeWhile_all Char.isDigit _ (sprintf03d_all_digit x (by omega))
  have hd3e : (sprintf03d x).isEmpty = false := by
    rw [sprintf03d_lt1000 x (by omega)]
    rfl
  refine ⟨digitsToNat (natToDigits year.natAbs), ?_⟩
  unfold parseSeq
  simp only [hdata, hpre, if_true, List.drop_left, htw, natToDigits_isEmpty,
    Bool.false_eq_true, if_false, htw2, hd3e]
  rw [digitsToNat_sprintf03d x (by omega)]

/-- Folding max over a list yields an element (or the seed) that bounds the
seed and every element. -/
theorem foldl_max_spec : ∀ (l : List Nat) (acc : Nat),
    (l.foldl max acc = acc ∨ l.foldl max acc ∈ l) ∧
    acc ≤ l.foldl max acc ∧ ∀ x ∈ l, x ≤ l.foldl max acc
  | [], acc => ⟨Or.inl rfl, Nat.le_refl acc, by simp⟩
  | y :: t, acc => by
    have ih := foldl_max_spec t (max acc y)
    have hstep : (y :: t).foldl max acc = t.foldl max (max acc y) := rfl
    refine ⟨?_, ?_, ?_⟩
    · rcases ih.1 with h | h
      · by_cases hy : acc ≤ y
        · right
          rw [hstep, h, Nat.max_eq_right hy]
          exact List.mem_cons_self y t
        · left
          rw [hstep, h, Nat.max_eq_left (by omega)]
      · right
        rw [hstep]
        exact List.mem_cons_of_mem y h
    · rw [hstep]
      exact Nat.le_trans (Nat.le_max_left acc y) ih.2.1
    · intro x hx
      rw [hstep]
      rcases List.mem_cons.mp hx with h | h
      · rw [h]
        exact Nat.le_trans (Nat.le_max_right acc y) ih.2.1
      · exact ih.2.2 x h

/-- Byte comparison of two canonical numbers with the same pattern is
numeric comparison of their sequences. -/
theorem mkInvoiceNumber_charsLt (pfx : String) (year : Int) (a b : Nat)
    (ha : a ≤ 999) (hb : b ≤ 999) :
    charsLt (mkInvoiceNumber pfx year a).data (mkInvoiceNumber pfx year b).data
      = decide (a < b) := by
  rw [mkInvoiceNumber_data, mkInvoiceNumber_data, charsLt_append]
  by_cases h : a < b
  · rw [(sprintf03d_lt a b (by omega) (by omega)).mpr h, decide_eq_true h]
  · have hne : charsLt (sprintf03d a) (sprintf03d b) = false :=
      Bool.eq_false_iff.mpr
        (fun hc => h ((sprintf03d_lt a b (by omega) (by omega)).mp hc))
    rw [hne, decide_eq_false h]

/-- The SQL max scan over canonical numbers, seeded with one of them,
returns the canonical number of the numeric maximum. -/
theorem pickFold_canonical (pfx : String) (year : Int) :
    ∀ (rest : List Nat) (acc : Nat), acc ≤ 999 → (∀ x ∈ rest, x ≤ 999) →
      (rest.map (mkInvoiceNumber pfx year)).foldl
        (fun a s => match a with
          | none => some s
          | some m => some (if charsLt m.data s.data then s else m))
        (some (mkInvoiceNumber pfx year acc))
      = some (mkInvoiceNumber pfx year (rest.foldl max acc))
  | [], acc, _, _ => rfl
  | x :: t, acc, hacc, hall => by
    have hx : x ≤ 999 := hall x (List.mem_cons_self x t)
    have hpick : (if charsLt (mkInvoiceNumber pfx year acc).data
          (mkInvoiceNumber pfx year x).data
        then mkInvoiceNumber pfx year x else mkInvoiceNumber pfx year acc)
        = mkInvoiceNumber pfx year (max acc x) := by
      rw [mkInvoiceNumber_charsLt pfx year acc x hacc hx]
      by_cases h : acc < x
      · rw [decide_eq_true h, if_pos rfl, Nat.max_eq_right (by omega)]
      · rw [decide_eq_false h]
        rw [Nat.max_eq_left (by omega)]
        rfl
    show ((mkInvoiceNumber pfx year x) :: t.map (mkInvoiceNumber pfx year)).foldl _ _ = _
    rw [List.foldl_cons]
    show (t.map (mkInvoiceNumber pfx year)).foldl _
        (some (if charsLt (mkInvoiceNumber pfx year acc).data
          (mkInvoiceNumber pfx year x).data
          then mkInvoiceNumber pfx year x else mkInvoiceNumber pfx year acc)) = _
    rw [hpick]
    rw [pickFold_canonical pfx year t (max acc x) (by omega)
      (fun z hz => hall z (List.mem_cons_of_mem x hz))]
    rfl

/-- Over a store of canonical numbers, the scan returns the canonical
number of the highest sequence. -/
theorem maxMatching_canonical (pfx : String) (year : Int)
    (seqs : List Nat) (hne : seqs ≠ []) (hall : ∀ x ∈ seqs, x ≤ 999) :
    ∃ M, M ∈ seqs ∧ (∀ x ∈ seqs, x ≤ M) ∧
      maxMatching (seqs.map (mkInvoiceNumber pfx year))
        (pfx ++ "-" ++ intToString year ++ "-")
        = some (mkInvoiceNumber pfx year M) := by
  have hmatch : ∀ n ∈ seqs.map (mkInvoiceNumber pfx year),
      likePrefix (pfx ++ "-" ++ intToString year ++ "-").data n.data = true := by
    intro n hn
    rcases List.mem_map.mp hn with ⟨x, _hx, hmk⟩
    rw [← hmk, mkInvoiceNumber_data]
    exact likePrefix_append _ _
  cases seqs with
  | nil => exact absurd rfl hne
  | cons s0 rest =>
    have hs0 : s0 ≤ 999 := hall s0 (List.mem_cons_self s0 rest)
    have hrest : ∀ x ∈ rest, x ≤ 999 :=
      fun x hx => hall x (List.mem_cons_of_mem s0 hx)
    have hspec := foldl_max_spec rest s0
    refine ⟨rest.foldl max s0, ?_, ?_, ?_⟩
    · rcases hspec.1 with h | h
      · rw [h]
        exact List.mem_cons_self s0 rest
      · exact List.mem_cons_of_mem s0 h
    · intro x hx
      rcases List.mem_cons.mp hx with h | h
      · rw [h]
        exact hspec.2.1
      · exact hspec.2.2 x h
    · unfold maxMatching
      rw [List.filter_eq_self.mpr hmatch]
      show ((mkInvoiceNumber pfx year s0) :: rest.map (mkInvoiceNumber pfx year)).foldl _ none = _
      rw [List.foldl_cons]
      exact pickFold_canonical pfx year rest s0 hs0 hrest

/-- C7 counterexample: with INV-2026-999 and INV-2026-1000 stored, the
highest existing sequence is 1000, so the claim demands INV-2026-1001 —
but the scan picks the byte-wise greatest number INV-2026-999, parses 999,
and returns INV-2026-1000, an already-used number. -/
theorem C7_lexicographic_max_counterexample :
    InvoiceRepo.GetNextInvoiceNumber ["INV-2026-999", "INV-2026-1000"] "INV" 2026
      = "INV-2026-1000" ∧
    "INV-2026-1000" ∈ ["INV-2026-999", "INV-2026-1000"] ∧
    mkInvoiceNumber "INV" 2026 1001 = "INV-2026-1001" ∧
    "INV-2026-1000" ≠ "INV-2026-1001" := by decide

/-- C7 amended: GetNextInvoiceNumber increments the sequence parsed from
the byte-wise greatest stored number matching prefix-year-, which equals
the highest existing sequence whenever every matching number is canonical
with a sequence between 1 and 999; with no matching number, or an
unparsable greatest match, it returns the sequence-001 number; and on the
claim's example store {INV-2026-001, INV-2026-002} it returns
INV-2026-003. -/
theorem C7_next_invoice_number (pfx : String) (year : Int)
    (numbers : List String) (seqs : List Nat) :
    ((∀ n ∈ numbers,
        likePrefix (pfx ++ "-" ++ intToString year ++ "-").data n.data = false) →
      InvoiceRepo.GetNextInvoiceNumber numbers pfx year
        = mkInvoiceNumber pfx year 1) ∧
    (∀ last, maxMatching numbers (pfx ++ "-" ++ intToString year ++ "-") = some last →
      parseSeq pfx last = none →
      InvoiceRepo.GetNextInvoiceNumber numbers pfx year
        = mkInvoiceNumber pfx year 1) ∧
    (0 ≤ year → seqs ≠ [] → (∀ x ∈ seqs, 1 ≤ x ∧ x ≤ 999) →
      ∃ M, M ∈ seqs ∧ (∀ x ∈ seqs, x ≤ M) ∧
        InvoiceRepo.GetNextInvoiceNumber (seqs.map (mkInvoiceNumber pfx year)) pfx year
          = mkInvoiceNumber pfx year (M + 1)) ∧
    InvoiceRepo.GetNextInvoiceNumber ["INV-2026-001", "INV-2026-002"] "INV" 2026
      = "INV-2026-003" := by
  refine ⟨?_, ?_, ?_, by decide⟩
  · intro hnone
    have hfil : numbers.filter
        (fun n => likePrefix (pfx ++ "-" ++ intToString year ++ "-").data n.data)
        = [] := by
      rw [List.filter_eq_nil_iff]
      intro a ha
      rw [hnone a ha]
      exact Bool.false_ne_true
    simp only [InvoiceRepo.GetNextInvoiceNumber, maxMatching, hfil, List.foldl_nil]
  · intro last hmax hparse
    simp only [InvoiceRepo.GetNextInvoiceNumber, hmax, hparse]
  · intro hy hne hall
    obtain ⟨M, hmem, hbnd, hmax⟩ := maxMatching_canonical pfx year seqs hne
      (fun x hx => (hall x hx).2)
    obtain ⟨y, hparse⟩ := parseSeq_canonical pfx year M hy (hall M hmem).2
    refine ⟨M, hmem, hbnd, ?_⟩
    simp only [InvoiceRepo.GetNextInvoiceNumber, hmax, hparse]

/-- Witness for C7 on the sequences 1 and 2 under prefix INV, year 2026:
the highest sequence is found and incremented. -/
theorem C7_next_invoice_number_witness :
    ∃ M, M ∈ [1, 2] ∧ (∀ x ∈ [1, 2], x ≤ M) ∧
      InvoiceRepo.GetNextInvoiceNumber
        ([1, 2].map (mkInvoiceNumber "INV" 2026)) "INV" 2026
        = mkInvoiceNumber "INV" 2026 (M + 1) :=
  (C7_next_invoice_number "INV" 2026 [] [1, 2]).2.2.1 (by decide) (by simp)
    (by decide)

end Claims

/-- C5 counterexample: from Idle (no singleton), Pause does not fail with
the claimed NotRunningError, nor Resume with NotPausedError — both fail
with NoActiveTimerError. -/
theorem C5_idle_errors_counterexample :
    (TimerService.Pause none 0).1 = .error .noActiveTimer ∧
    (TimerService.Resume none 0).1 = .error .noActiveTimer ∧
    Err.noActiveTimer ≠ Err.notRunning ∧
    Err.noActiveTimer ≠ Err.notPaused := by decide

/-- C5 amended: from Idle only Start succeeds — Pause and Resume fail with
NoActiveTimerError (not NotRunningError/NotPausedError), as do Stop and
Discard; from Running only Pause, Stop and Discard succeed — Resume fails
with NotPausedError and Start (for an existing client) with
AlreadyRunningError; from Paused only Resume, Stop and Discard succeed —
Pause fails with NotRunningError and Start (for an existing client) with
AlreadyRunningError.  Every failing operation leaves the singleton
unchanged.  Stop's success additionally needs the timer's owning client to
exist with a nonnegative rate and the timer to convert to a valid entry. -/
theorem C5_timer_state_machine (clients : List Client) (es : EntryStore)
    (now cid : Int) (desc : String) :
    ((TimerService.Pause none now = (.error .noActiveTimer, none)) ∧
     (TimerService.Resume none now = (.error .noActiveTimer, none)) ∧
     (TimerService.Stop clients none es now = (.error .noActiveTimer, (none, es))) ∧
     (TimerService.Discard none = (.error .noActiveTimer, none)) ∧
     (∀ c, findClient clients cid = some c →
        TimerService.Start clients none cid desc now
          = (.ok (), some (NewActiveTimer cid desc now)))) ∧
    (∀ t : ActiveTimer, t.State = .running →
      (TimerService.Resume (some t) now = (.error .notPaused, some t)) ∧
      (∀ c, findClient clients cid = some c →
        TimerService.Start clients (some t) cid desc now = (.error .alreadyRunning, some t)) ∧
      (TimerService.Pause (some t) now = (.ok (), some (t.Pause now))) ∧
      (TimerService.Discard (some t) = (.ok (), none)) ∧
      (∀ c, findClient clients t.clientID = some c → 0 ≤ c.hourlyRate →
        0 < t.clientID → t.startTime ≠ 0 → t.startTime ≤ now →
        ∃ entry es', TimerService.Stop clients (some t) es now = (.ok entry, (none, es')))) ∧
    (∀ t : ActiveTimer, t.State = .paused →
      (TimerService.Pause (some t) now = (.error .notRunning, some t)) ∧
      (∀ c, findClient clients cid = some c →
        TimerService.Start clients (some t) cid desc now = (.error .alreadyRunning, some t)) ∧
      (TimerService.Resume (some t) now = (.ok (), some (t.Resume now))) ∧
      (TimerService.Discard (some t) = (.ok (), none)) ∧
      (∀ c, findClient clients t.clientID = some c → 0 ≤ c.hourlyRate →
        0 < t.clientID → t.startTime ≠ 0 → t.startTime ≤ now →
        ∃ entry es', TimerService.Stop clients (some t) es now = (.ok entry, (none, es')))) := by
  have hstop : ∀ (t : ActiveTimer), ∀ c, findClient clients t.clientID = some c →
      0 ≤ c.hourlyRate → 0 < t.clientID → t.startTime ≠ 0 → t.startTime ≤ now →
      (t.ToTimeEntry c.hourlyRate now).Validate = .ok () := by
    intro t c _hc hrate hcid hstart hnow
    have hfields : (t.ToTimeEntry c.hourlyRate now).clientID = t.clientID ∧
        (t.ToTimeEntry c.hourlyRate now).hourlyRate = c.hourlyRate ∧
        (t.ToTimeEntry c.hourlyRate now).startTime = t.startTime ∧
        (t.ToTimeEntry c.hourlyRate now).endTime = some now := by
      cases hp : t.pausedAt <;>
        simp [ActiveTimer.ToTimeEntry, ActiveTimer.Resume, hp]
    obtain ⟨h1, h2, h3, h4⟩ := hfields
    rw [TimeEntry.Validate, h1, h2, h3, h4]
    rw [if_neg (by omega : ¬ t.clientID ≤ 0), if_neg (not_lt.mpr hrate), if_neg hstart]
    have hn : ¬ now < t.startTime := by omega
    exact if_neg hn
  refine ⟨⟨rfl, rfl, rfl, rfl, ?_⟩, ?_, ?_⟩
  · intro c hc
    simp [TimerService.Start, hc]
  · intro t ht
    have hp : t.pausedAt = none := (ActiveTimer.state_running_iff t).mp ht
    refine ⟨?_, ?_, ?_, rfl, ?_⟩
    · simp [TimerService.Resume, ht]
    · intro c hc
      simp [TimerService.Start, hc]
    · simp [TimerService.Pause, ht]
    · intro c hc hrate hcid hstart hnow
      have hv := hstop t c hc hrate hcid hstart hnow
      refine ⟨{ t.ToTimeEntry c.hourlyRate now with id := es.nextEntryID },
        { es with
          entries := es.entries ++ [{ t.ToTimeEntry c.hourlyRate now with id := es.nextEntryID }]
          nextEntryID := es.nextEntryID + 1 }, ?_⟩
      simp [TimerService.Stop, hc, EntryRepo.Create, hv]
  · intro t ht
    have hp : ∃ p, t.pausedAt = some p := (ActiveTimer.state_paused_iff t).mp ht
    refine ⟨?_, ?_, ?_, rfl, ?_⟩
    · simp [TimerService.Pause, ht]
    · intro c hc
      simp [TimerService.Start, hc]
    · simp [TimerService.Resume, ht]
    · intro c hc hrate hcid hstart hnow
      have hv := hstop t c hc hrate hcid hstart hnow
      refine ⟨{ t.ToTimeEntry c.hourlyRate now with id := es.nextEntryID },
        { es with
          entries := es.entries ++ [{ t.ToTimeEntry c.hourlyRate now with id := es.nextEntryID }]
          nextEntryID := es.nextEntryID + 1 }, ?_⟩
      simp [TimerService.Stop, hc, EntryRepo.Create, hv]

/-- Witness for C5: from the concrete Paused state, Pause fails with
NotRunningError leaving the singleton unchanged, and Stop succeeds. -/
theorem C5_timer_state_machine_witness :
    (TimerService.Pause (some c5Paused) 30 = (.error .notRunning, some c5Paused)) ∧
    ∃ entry es', TimerService.Stop c5Clients (some c5Paused) c4Es 30
      = (.ok entry, (none, es')) := by
  have h := (C5_timer_state_machine c5Clients c4Es 30 7 "w").2.2 c5Paused (by decide)
  exact ⟨h.1, h.2.2.2.2
    { id := 7, name := "ACME", email := "", hourlyRate := 100, notes := "", isArchived := false }
    (by decide) (by decide) (by decide) (by decide) (by decide)⟩
